import Mathlib

/-!
Verification development for the data-structure serialization code generator
(`xilinxutils/dsgen.py`).  The Python classes `BaseType`, `IntType`,
`FloatType`, `EnumType`, `FieldInfo` and `DataStructGen` are embedded as
executable Lean definitions; raising `ValueError` is modelled with
`Except String`.  All generated C++ text is modelled as the exact strings the
Python code builds (literal braces are written with the escapes \x7b and \x7d).
-/

namespace DSGen

/-- The closed set of type descriptors: `IntType width signed`, `FloatType`
(width fixed at 32), and `EnumType name entries width` where the entries are
the already-processed (label, value) pairs and `width` the stored width. -/
inductive BaseType where
  | int : Nat → Bool → BaseType
  | float : BaseType
  | enum : String → List (String × Int) → Nat → BaseType
  deriving DecidableEq, Repr

/-- `self.width` of a type descriptor. -/
def BaseType.width : BaseType → Nat
  | .int w _ => w
  | .float => 32
  | .enum _ _ w => w

/-- `cpp_repr` of each variant. -/
def BaseType.cpp_repr : BaseType → String
  | .int w s => (if s then "ap_int" else "ap_uint") ++ "<" ++ toString w ++ ">"
  | .float => "float"
  | .enum _ _ w => "ap_uint<" ++ toString w ++ ">"

/-- `read_expr_impl` of each variant.  The integer/enum variants return the
whole word when the field exactly fills it and a bit-range slice otherwise;
the float variant re-checks the fit and always goes through the union, using
the whole word exactly when `width == word_width and ind0 == 0`. -/
def BaseType.read_expr_impl : BaseType → String → Nat → Nat → Except String String
  | .int w _, word_name, word_width, ind0 =>
      if w = word_width ∧ ind0 = 0 then .ok word_name
      else .ok (word_name ++ ".range(" ++ toString ((ind0 : Int) + w - 1) ++ ", " ++
        toString ind0 ++ ")")
  | .float, word_name, word_width, ind0 =>
      if ind0 + 32 > word_width then .error "Float field does not fit in word"
      else
        let src_expr :=
          if 32 = word_width ∧ ind0 = 0 then word_name
          else word_name ++ ".range(" ++ toString (ind0 + 31) ++ ", " ++ toString ind0 ++ ")"
        .ok ("union \x7b float f; ap_uint<32> u; \x7d conv;\n        conv.u = " ++
          src_expr ++ ";\n        /* assign to variable */ conv.f")
  | .enum _ _ w, word_name, word_width, ind0 =>
      if w = word_width ∧ ind0 = 0 then .ok word_name
      else .ok (word_name ++ ".range(" ++ toString ((ind0 : Int) + w - 1) ++ ", " ++
        toString ind0 ++ ")")

/-- `BaseType.read_expr`: the width-overflow precondition check, then dispatch
to the variant implementation. -/
def BaseType.read_expr (t : BaseType) (word_name : String) (word_width ind0 : Nat) :
    Except String String :=
  if t.width + ind0 > word_width then
    .error "Type bitwidth exceeds word bitwidth at given index."
  else t.read_expr_impl word_name word_width ind0

/-- `write_expr_impl` of each variant. -/
def BaseType.write_expr_impl : BaseType → String → String → Nat → Nat → Except String String
  | .int w _, var_name, word_name, word_width, ind0 =>
      if w = word_width ∧ ind0 = 0 then .ok (word_name ++ " = " ++ var_name ++ ";")
      else .ok (word_name ++ ".range(" ++ toString ((ind0 : Int) + w - 1) ++ ", " ++
        toString ind0 ++ ") = " ++ var_name ++ ";")
  | .float, var_name, word_name, word_width, ind0 =>
      if ind0 + 32 > word_width then .error "Float field does not fit in word"
      else .ok ("union \x7b float f; ap_uint<32> u; \x7d conv;\n        conv.f = " ++
        var_name ++ ";\n        " ++ word_name ++ ".range(" ++ toString (ind0 + 31) ++
        ", " ++ toString ind0 ++ ") = conv.u;")
  | .enum _ _ w, var_name, word_name, word_width, ind0 =>
      if w = word_width ∧ ind0 = 0 then .ok (word_name ++ " = " ++ var_name ++ ";")
      else .ok (word_name ++ ".range(" ++ toString ((ind0 : Int) + w - 1) ++ ", " ++
        toString ind0 ++ ") = " ++ var_name ++ ";")

/-- `BaseType.write_expr`: the width-overflow precondition check, then dispatch
to the variant implementation. -/
def BaseType.write_expr (t : BaseType) (var_name word_name : String) (word_width ind0 : Nat) :
    Except String String :=
  if t.width + ind0 > word_width then
    .error "Type bitwidth exceeds word bitwidth at given index."
  else t.write_expr_impl var_name word_name word_width ind0

/-- `preamble`: only the enum variant contributes one (its C++ enum
declaration); the other variants return `None`. -/
def BaseType.preamble : BaseType → Option String
  | .enum n entries _ =>
      some ("enum " ++ n ++ " : unsigned int \x7b\n        " ++
        String.intercalate ",\n        "
          (entries.map (fun e => e.1 ++ " = " ++ toString e.2)) ++
        "\n    \x7d;")
  | _ => none

/-- One raw entry passed to the `EnumType` constructor: either a bare label or
an explicit (label, value) pair.  (The Python `raise` for any other entry kind
is excluded by this type.) -/
inductive EnumEntry where
  | label : String → EnumEntry
  | pair : String → Int → EnumEntry
  deriving DecidableEq, Repr

/-- The entry-processing loop of `EnumType.__init__`: bare labels take the
running auto value `next_val` (then increment it); explicit pairs are kept and
reset `next_val` to `value + 1`.  Returns the processed pairs and the final
auto counter. -/
def processEntries : List EnumEntry → Int → List (String × Int) × Int
  | [], next_val => ([], next_val)
  | .label s :: es, next_val =>
      let r := processEntries es (next_val + 1)
      ((s, next_val) :: r.1, r.2)
  | .pair s v :: es, _ =>
      let r := processEntries es (v + 1)
      ((s, v) :: r.1, r.2)

/-- `EnumType.__init__`: process the entries starting the auto counter at 0;
if no width is supplied, compute `max(1, ceil(log2(next_val)))` —
`math.log2` raises a math domain error when `next_val <= 0`. -/
def mkEnumType (name : String) (entries : List EnumEntry) (width : Option Nat) :
    Except String BaseType :=
  let r := processEntries entries 0
  match width with
  | some w => .ok (.enum name r.1 w)
  | none =>
      if r.2 ≤ 0 then .error "math domain error"
      else .ok (.enum name r.1 (max 1 (Nat.clog 2 r.2.toNat)))

/-- The `FieldInfo` record: field name, type descriptor, optional description
and comment placement style. -/
structure FieldInfo where
  name : String
  dtype : BaseType
  descr : Option String
  comment_style : String
  deriving DecidableEq, Repr

/-- Python truthiness of the optional description string. -/
def strTruthy : Option String → Bool
  | none => false
  | some s => !s.isEmpty

/-- `FieldInfo.cpp_decl`: the C++ field declaration line with the optional
comment placed above or inline. -/
def FieldInfo.cpp_decl (f : FieldInfo) : String :=
  if strTruthy f.descr ∧ f.comment_style = "above" then
    "    // " ++ f.descr.getD "" ++ "\n    " ++ f.dtype.cpp_repr ++ " " ++ f.name ++ ";"
  else if strTruthy f.descr ∧ f.comment_style = "inline" then
    "    " ++ f.dtype.cpp_repr ++ " " ++ f.name ++ "; // " ++ f.descr.getD ""
  else
    "    " ++ f.dtype.cpp_repr ++ " " ++ f.name ++ ";"

/-- Python string interpolation of the `word_var` variable, which is either a
string or `None` (rendered as the text "None"). -/
def pyStr : Option String → String
  | none => "None"
  | some s => s

/-- The per-field loop of `DataStructGen.gen_stream_read` (lines 556-575 of
the source): state is the bit index `ind0` within the current word, the count
`word_count` of words read so far, and the current word variable `word_var`
(`none` when no word has been opened).  When the field does not fit — or no
word is open — a new word `w{word_count}` is read and the index reset.
Returns the generated lines and the final `word_var`. -/
def readLoop (W : Nat) : List FieldInfo → Nat → Nat → Option String →
    Except String (List String × Option String)
  | [], _, _, word_var => .ok ([], word_var)
  | f :: fs, ind0, word_count, word_var =>
    let bw := f.dtype.width
    match word_var with
    | none =>
        let wv := "w" ++ toString word_count
        (do
          let expr ← f.dtype.read_expr (wv ++ ".data") W 0
          let rest ← readLoop W fs (0 + bw) (word_count + 1) (some wv)
          .ok (("        Tstream " ++ wv ++ " = in.read();") ::
               ("        " ++ f.name ++ " = " ++ expr ++ ";") :: rest.1, rest.2))
    | some v =>
        if ind0 + bw > W then
          let wv := "w" ++ toString word_count
          (do
            let expr ← f.dtype.read_expr (wv ++ ".data") W 0
            let rest ← readLoop W fs (0 + bw) (word_count + 1) (some wv)
            .ok (("        Tstream " ++ wv ++ " = in.read();") ::
                 ("        " ++ f.name ++ " = " ++ expr ++ ";") :: rest.1, rest.2))
        else
          (do
            let expr ← f.dtype.read_expr (v ++ ".data") W ind0
            let rest ← readLoop W fs (ind0 + bw) word_count word_var
            .ok (("        " ++ f.name ++ " = " ++ expr ++ ";") :: rest.1, rest.2))

/-- The fixed header lines of a generated `stream_read_{W}` method. -/
def readHeaderLines (name : String) (W : Nat) : List String :=
  ["    template<typename Tstream>",
   "    bool stream_read_" ++ toString W ++ "(hls::stream<Tstream>& in) \x7b",
   "        constexpr int bus_bits = decltype(Tstream::data)::width;",
   "        static_assert(bus_bits == " ++ toString W ++ ", \"Only " ++ toString W ++
     "-bit stream supported in " ++ name ++ "::stream_read_" ++ toString W ++ "\");",
   ""]

/-- The too-wide-field check shared by `gen_stream_read` and
`gen_stream_write`: the first field whose width exceeds the bus width, if any. -/
def fieldTooWide (fields : List FieldInfo) (W : Nat) : Option FieldInfo :=
  fields.find? (fun f => decide (W < f.dtype.width))

/-- The `ValueError` message raised for a too-wide field. -/
def fieldTooWideMsg (f : FieldInfo) (W : Nat) : String :=
  "Field '" ++ f.name ++ "' has width " ++ toString f.dtype.width ++
  " bits, which exceeds bus width " ++ toString W ++ " bits"

/-- `DataStructGen.gen_stream_read`: check every field against the bus width,
then run the packing loop and close with the `tlast` bookkeeping (interpolating
the final `word_var`, which is `None` when there were no fields). -/
def genStreamRead (name : String) (fields : List FieldInfo) (W : Nat) :
    Except String String :=
  match fieldTooWide fields W with
  | some f => .error (fieldTooWideMsg f W)
  | none =>
    (do
      let r ← readLoop W fields 0 0 none
      .ok (String.intercalate "\n" (readHeaderLines name W ++ r.1 ++
        ["        bool tlast = " ++ pyStr r.2 ++ ".last;",
         "",
         "        return tlast;",
         "    \x7d"])))

/-- The first pass of `DataStructGen.gen_stream_write` (lines 618-628): count
the total number of words needed, with state `temp_ind`/`temp_count`. -/
def writeFirstPass (W : Nat) : List FieldInfo → Nat → Nat → Nat
  | [], _, temp_count => temp_count
  | f :: fs, temp_ind, temp_count =>
    if temp_ind + f.dtype.width > W ∨ temp_count = 0 then
      writeFirstPass W fs f.dtype.width (temp_count + 1)
    else
      writeFirstPass W fs (temp_ind + f.dtype.width) temp_count

/-- The second pass of `DataStructGen.gen_stream_write` (lines 630-657): when a
field does not fit — or no word is open — flush the previous word (mark it not
last and emit it), then open and zero-initialize a new word; every field's
encode statement is appended at the running bit index.  Returns the generated
lines and the final `word_var`. -/
def writeLoop (W : Nat) : List FieldInfo → Nat → Nat → Option String →
    Except String (List String × Option String)
  | [], _, _, word_var => .ok ([], word_var)
  | f :: fs, ind0, word_count, word_var =>
    let bw := f.dtype.width
    match word_var with
    | none =>
        let wv := "w" ++ toString word_count
        (do
          let stmt ← f.dtype.write_expr f.name (wv ++ ".data") W 0
          let rest ← writeLoop W fs (0 + bw) (word_count + 1) (some wv)
          .ok (("        Tstream " ++ wv ++ ";") ::
               ("        " ++ wv ++ ".data = 0;") ::
               ("        " ++ wv ++ ".keep = -1;") ::
               ("        " ++ wv ++ ".strb = -1;") ::
               ("        " ++ stmt) :: rest.1, rest.2))
    | some v =>
        if ind0 + bw > W then
          let wv := "w" ++ toString word_count
          (do
            let stmt ← f.dtype.write_expr f.name (wv ++ ".data") W 0
            let rest ← writeLoop W fs (0 + bw) (word_count + 1) (some wv)
            .ok (("        " ++ v ++ ".last = false;") ::
                 ("        out.write(" ++ v ++ ");") ::
                 "" ::
                 ("        Tstream " ++ wv ++ ";") ::
                 ("        " ++ wv ++ ".data = 0;") ::
                 ("        " ++ wv ++ ".keep = -1;") ::
                 ("        " ++ wv ++ ".strb = -1;") ::
                 ("        " ++ stmt) :: rest.1, rest.2))
        else
          (do
            let stmt ← f.dtype.write_expr f.name (v ++ ".data") W ind0
            let rest ← writeLoop W fs (ind0 + bw) word_count word_var
            .ok (("        " ++ stmt) :: rest.1, rest.2))

/-- The fixed header lines of a generated `stream_write_{W}` method. -/
def writeHeaderLines (name : String) (W : Nat) : List String :=
  ["    template<typename Tstream>",
   "    void stream_write_" ++ toString W ++
     "(hls::stream<Tstream>& out, bool tlast = true) const \x7b",
   "        constexpr int bus_bits = decltype(Tstream::data)::width;",
   "        static_assert(bus_bits == " ++ toString W ++ ", \"Only " ++ toString W ++
     "-bit stream supported in " ++ name ++ "::stream_write_" ++ toString W ++ "\");",
   ""]

/-- `DataStructGen.gen_stream_write`: check every field against the bus width,
run the write loop, then write the final word (marked with the caller-supplied
`tlast`) if one is open. -/
def genStreamWrite (name : String) (fields : List FieldInfo) (W : Nat) :
    Except String String :=
  match fieldTooWide fields W with
  | some f => .error (fieldTooWideMsg f W)
  | none =>
    (do
      let r ← writeLoop W fields 0 0 none
      let finalLines := match r.2 with
        | some v => [("        " ++ v ++ ".last = tlast;"), ("        out.write(" ++ v ++ ");")]
        | none => []
      .ok (String.intercalate "\n" (writeHeaderLines name W ++ r.1 ++ finalLines ++
        ["    \x7d"])))

/-- The `if constexpr` chain of a dispatch method: one branch per configured
width, the first introduced by `if` and the rest by `} else if`. -/
def dispatchBranches (call : Nat → String) : Nat → List Nat → List String
  | _, [] => []
  | i, w :: ws =>
      (if i = 0 then "        if constexpr (bus_bits == " ++ toString w ++ ") \x7b"
       else "        \x7d else if constexpr (bus_bits == " ++ toString w ++ ") \x7b") ::
      call w ::
      dispatchBranches call (i + 1) ws

/-- `DataStructGen.gen_stream_dispatch`: with no configured widths, emit
write/read stubs whose `static_assert` always fails at build time with a
message naming the record; otherwise emit the `if constexpr` dispatch ladder
with a build-time failure in the final `else`.  Returns
(stream_write code, stream_read code). -/
def genStreamDispatch (name : String) (stream_bus_widths : List Nat) : String × String :=
  match stream_bus_widths with
  | [] =>
      (String.intercalate "\n"
        ["    template<typename Tstream>",
         "    void stream_write(hls::stream<Tstream>& out, bool tlast = true) const \x7b",
         "        static_assert(sizeof(Tstream) == 0, ",
         "                     \"No stream bus widths configured for " ++ name ++ "\");",
         "    \x7d"],
       String.intercalate "\n"
        ["    template<typename Tstream>",
         "    bool stream_read(hls::stream<Tstream>& in) \x7b",
         "        static_assert(sizeof(Tstream) == 0, ",
         "                     \"No stream bus widths configured for " ++ name ++ "\");",
         "        return false;",
         "    \x7d"])
  | w0 :: _ =>
      let widths_str := String.intercalate ", " (stream_bus_widths.map toString)
      (String.intercalate "\n"
        (["    template<typename Tstream>",
          "    void stream_write(hls::stream<Tstream>& out, bool tlast = true) const \x7b",
          "        constexpr int bus_bits = decltype(Tstream::data)::width;"] ++
         dispatchBranches
           (fun w => "            stream_write_" ++ toString w ++ "(out, tlast);")
           0 stream_bus_widths ++
         ["        \x7d else \x7b",
          "            static_assert(bus_bits == " ++ toString w0 ++ ", ",
          "                         \"Unsupported bus width. Supported widths: " ++
            widths_str ++ "\");",
          "        \x7d",
          "    \x7d"]),
       String.intercalate "\n"
        (["    template<typename Tstream>",
          "    bool stream_read(hls::stream<Tstream>& in) \x7b",
          "        constexpr int bus_bits = decltype(Tstream::data)::width;"] ++
         dispatchBranches
           (fun w => "            return stream_read_" ++ toString w ++ "(in);")
           0 stream_bus_widths ++
         ["        \x7d else \x7b",
          "            static_assert(bus_bits == " ++ toString w0 ++ ", ",
          "                         \"Unsupported bus width. Supported widths: " ++
            widths_str ++ "\");",
          "            return false;",
          "        \x7d",
          "    \x7d"]))

/-- `DataStructGen.gen_equality_operator`: field-wise `&&` of comparisons. -/
def genEqualityOperator (name : String) (fields : List FieldInfo) : String :=
  String.intercalate "\n"
    ["    bool operator==(const " ++ name ++ "& other) const \x7b",
     "        return " ++ String.intercalate " && "
       (fields.map (fun f => "(this->" ++ f.name ++ " == other." ++ f.name ++ ")")) ++ ";",
     "    \x7d"]

/-- The per-field `oss <<` lines of `gen_string_method`: each field except the
last is followed by a comma separator. -/
def toStringFieldLines : List FieldInfo → List String
  | [] => []
  | [f] => ["        oss << \"" ++ f.name ++ ": \" << " ++ f.name ++ ";"]
  | f :: fs =>
      ("        oss << \"" ++ f.name ++ ": \" << " ++ f.name ++ " << \", \";") ::
      toStringFieldLines fs

/-- `DataStructGen.gen_string_method`. -/
def genStringMethod (fields : List FieldInfo) : String :=
  String.intercalate "\n"
    (["    std::string to_string() const \x7b",
      "        std::ostringstream oss;",
      "        oss << \"\x7b\";"] ++
     toStringFieldLines fields ++
     ["        oss << \"\x7d\";",
      "        return oss.str();",
      "    \x7d"])

/-- Python `str.lower` (per character). -/
def pyLower (s : String) : String := s.map Char.toLower

/-- The include-guard macro name: upper-case the file name and replace the
characters '.' and '-' with underscores. -/
def guardName (include_file : String) : String :=
  (include_file.map Char.toUpper).map (fun c => if c = '.' then '_' else if c = '-' then '_' else c)

/-- The auxiliary-declaration section of `gen_include` (lines 476-481): one
`"    " ++ preamble` line (followed by a blank line) per field whose type has a
preamble that is non-`None` and non-blank — with no deduplication. -/
def preambleSection (fields : List FieldInfo) : List String :=
  (fields.map (fun f =>
    match f.dtype.preamble with
    | some p => if p.data.any (fun c => !c.isWhitespace) then ["    " ++ p, ""] else []
    | none => [])).flatten

/-- The per-width stream-method section of `gen_include` (lines 487-495): for
each bus width, the read method, a blank line, the write method, a blank
line. -/
def streamSection (name : String) (fields : List FieldInfo) : List Nat →
    Except String (List String)
  | [] => .ok []
  | w :: ws =>
      (do
        let r ← genStreamRead name fields w
        let wr ← genStreamWrite name fields w
        let rest ← streamSection name fields ws
        .ok ([r, "", wr, ""] ++ rest))

/-- The fixed opening lines of the generated include file. -/
def includeHeaderLines (name guard : String) : List String :=
  ["#ifndef " ++ guard,
   "#define " ++ guard,
   "",
   "#include <hls_stream.h>",
   "#include <ap_int.h>",
   "#include <ap_axi_sdata.h>",
   "#include <string>",
   "#include <sstream>",
   "",
   "class " ++ name ++ " \x7b",
   "public:",
   ""]

/-- The pure text-building core of `DataStructGen.gen_include` (the directory
creation and physical file write are external collaborators): the list of
lines whose "\n"-join is written to the include file. -/
def genIncludeLines (name : String) (include_file : Option String)
    (fields : List FieldInfo) (bus_widths : List Nat) :
    Except String (List String) :=
  let incFile := include_file.getD (pyLower name ++ ".h")
  let g := guardName incFile
  (do
    let streams ← streamSection name fields bus_widths
    let d := genStreamDispatch name bus_widths
    .ok (includeHeaderLines name g ++
         preambleSection fields ++
         fields.map (fun f => f.cpp_decl) ++
         [""] ++
         streams ++
         [d.1, "", d.2, ""] ++
         [genEqualityOperator name fields, "", genStringMethod fields, ""] ++
         ["\x7d;", "", "#endif // " ++ g, ""]))

/-! ## Word placement: projections of the two generator loops, and the greedy
single-pass algorithm as the specification states it. -/

/-- Projection of the `gen_stream_read` loop onto word placements: for each
field, the (word index, bit offset) at which its decode is generated.  State
mirrors the loop: `ind0`, `word_count`, and whether a word is open
(`word_var is None`).  A field placed in the open word `w{word_count-1}` gets
word index `word_count - 1`. -/
def readPlacementsGo (W : Nat) : List FieldInfo → Nat → Nat → Bool → List (Nat × Nat)
  | [], _, _, _ => []
  | f :: fs, ind0, word_count, opened =>
    if ind0 + f.dtype.width > W ∨ opened = false then
      (word_count, 0) :: readPlacementsGo W fs (0 + f.dtype.width) (word_count + 1) true
    else
      (word_count - 1, ind0) :: readPlacementsGo W fs (ind0 + f.dtype.width) word_count opened

/-- Word placements of `gen_stream_read`. -/
def readPlacements (W : Nat) (fields : List FieldInfo) : List (Nat × Nat) :=
  readPlacementsGo W fields 0 0 false

/-- Final `word_count` of the `gen_stream_read` loop: the number of words the
generated routine reads. -/
def readWordCountGo (W : Nat) : List FieldInfo → Nat → Nat → Bool → Nat
  | [], _, word_count, _ => word_count
  | f :: fs, ind0, word_count, opened =>
    if ind0 + f.dtype.width > W ∨ opened = false then
      readWordCountGo W fs (0 + f.dtype.width) (word_count + 1) true
    else
      readWordCountGo W fs (ind0 + f.dtype.width) word_count opened

/-- Word count of the generated read routine. -/
def readWordCount (W : Nat) (fields : List FieldInfo) : Nat :=
  readWordCountGo W fields 0 0 false

/-- Projection of the second pass of `gen_stream_write` onto word placements:
the code increments `word_count` and names the new word `w{word_count - 1}`,
so a field placed on opening gets word index equal to the old `word_count`. -/
def writePlacementsGo (W : Nat) : List FieldInfo → Nat → Nat → Bool → List (Nat × Nat)
  | [], _, _, _ => []
  | f :: fs, ind0, word_count, opened =>
    if ind0 + f.dtype.width > W ∨ opened = false then
      (word_count, 0) :: writePlacementsGo W fs (0 + f.dtype.width) (word_count + 1) true
    else
      (word_count - 1, ind0) :: writePlacementsGo W fs (ind0 + f.dtype.width) word_count opened

/-- Word placements of `gen_stream_write`. -/
def writePlacements (W : Nat) (fields : List FieldInfo) : List (Nat × Nat) :=
  writePlacementsGo W fields 0 0 false

/-- Modelled from the spec: the greedy single-pass placement of section 4.3 —
"for each field in order: if no word is open, or
current_offset + field.width > word_width, open a new one and place the field
at offset 0; otherwise place it at the running offset".  `idx` counts words
opened so far, so an open word has index `idx - 1`. -/
def greedyPlaceGo (W : Nat) : List FieldInfo → Nat → Nat → Bool → List (Nat × Nat)
  | [], _, _, _ => []
  | f :: fs, current_offset, idx, opened =>
    if opened = false ∨ current_offset + f.dtype.width > W then
      (idx, 0) :: greedyPlaceGo W fs (0 + f.dtype.width) (idx + 1) true
    else
      (idx - 1, current_offset) :: greedyPlaceGo W fs (current_offset + f.dtype.width) idx opened

/-- Modelled from the spec: greedy single-pass word placement. -/
def greedyPlace (W : Nat) (fields : List FieldInfo) : List (Nat × Nat) :=
  greedyPlaceGo W fields 0 0 false

/-- Modelled from the spec: the "knapsack arrival" count of section 8 — the
number of times a new word must be opened because none is open yet or the
running offset would exceed the word width. -/
def knapsackCountGo (W : Nat) : List FieldInfo → Nat → Nat → Bool → Nat
  | [], _, n, _ => n
  | f :: fs, current_offset, n, opened =>
    if opened = false ∨ current_offset + f.dtype.width > W then
      knapsackCountGo W fs (0 + f.dtype.width) (n + 1) true
    else
      knapsackCountGo W fs (current_offset + f.dtype.width) n opened

/-- Modelled from the spec: knapsack-arrival word count. -/
def knapsackCount (W : Nat) (fields : List FieldInfo) : Nat :=
  knapsackCountGo W fields 0 0 false

theorem readPlacementsGo_eq_greedy (W : Nat) :
    ∀ (fs : List FieldInfo) (i n : Nat) (b : Bool),
      readPlacementsGo W fs i n b = greedyPlaceGo W fs i n b := by
  intro fs
  induction fs with
  | nil => intro i n b; rfl
  | cons f fs ih =>
      intro i n b
      simp only [readPlacementsGo, greedyPlaceGo, or_comm]
      by_cases h : b = false ∨ i + f.dtype.width > W
      · rw [if_pos h, if_pos h, ih]
      · rw [if_neg h, if_neg h, ih]

theorem writePlacementsGo_eq_greedy (W : Nat) :
    ∀ (fs : List FieldInfo) (i n : Nat) (b : Bool),
      writePlacementsGo W fs i n b = greedyPlaceGo W fs i n b := by
  intro fs
  induction fs with
  | nil => intro i n b; rfl
  | cons f fs ih =>
      intro i n b
      simp only [writePlacementsGo, greedyPlaceGo, or_comm]
      by_cases h : b = false ∨ i + f.dtype.width > W
      · rw [if_pos h, if_pos h, ih]
      · rw [if_neg h, if_neg h, ih]

theorem readWordCountGo_eq_knapsack (W : Nat) :
    ∀ (fs : List FieldInfo) (i n : Nat) (b : Bool),
      readWordCountGo W fs i n b = knapsackCountGo W fs i n b := by
  intro fs
  induction fs with
  | nil => intro i n b; rfl
  | cons f fs ih =>
      intro i n b
      simp only [readWordCountGo, knapsackCountGo, or_comm]
      by_cases h : b = false ∨ i + f.dtype.width > W
      · rw [if_pos h, if_pos h, ih]
      · rw [if_neg h, if_neg h, ih]

theorem writeFirstPass_eq_knapsack (W : Nat) :
    ∀ (fs : List FieldInfo) (i n : Nat), 1 ≤ n →
      writeFirstPass W fs i n = knapsackCountGo W fs i n true := by
  intro fs
  induction fs with
  | nil => intro i n _; rfl
  | cons f fs ih =>
      intro i n hn
      simp only [writeFirstPass, knapsackCountGo]
      have hne : ¬ n = 0 := by omega
      by_cases h : i + f.dtype.width > W
      · rw [if_pos (Or.inl h), if_pos (by simp [h]), Nat.zero_add, ih _ _ (by omega)]
      · rw [if_neg (by simp [h, hne]), if_neg (by simp [h]), ih _ _ hn]

/-- Every placement (paired with its field's width) produced from any state
fits inside a word, provided every remaining field's width is at most `W`. -/
theorem greedyPlaceGo_fits (W : Nat) :
    ∀ (fs : List FieldInfo) (i n : Nat) (b : Bool),
      (∀ f ∈ fs, f.dtype.width ≤ W) →
      ∀ p ∈ (greedyPlaceGo W fs i n b).zip (fs.map (fun f => f.dtype.width)),
        p.1.2 + p.2 ≤ W := by
  intro fs
  induction fs with
  | nil => intro i n b _ p hp; simp [greedyPlaceGo] at hp
  | cons f fs ih =>
      intro i n b h p hp
      simp only [greedyPlaceGo, List.map_cons] at hp
      by_cases hc : b = false ∨ i + f.dtype.width > W
      · rw [if_pos hc] at hp
        rcases (List.mem_cons).1 hp with h1 | h1
        · subst h1; simpa using h f (by simp)
        · exact ih _ _ _ (fun g hg => h g (by simp [hg])) p h1
      · rw [if_neg hc] at hp
        rcases (List.mem_cons).1 hp with h1 | h1
        · subst h1
          simp only [not_or, not_lt] at hc
          simpa using hc.2
        · exact ih _ _ _ (fun g hg => h g (by simp [hg])) p h1

/-- From an open-word state with current word `idx` and running offset `i`,
every later placement is either in a strictly later word or in word `idx` at
an offset at least `i`. -/
theorem greedyPlaceGo_mono (W : Nat) :
    ∀ (fs : List FieldInfo) (i idx : Nat),
      ∀ p ∈ greedyPlaceGo W fs i (idx + 1) true,
        idx < p.1 ∨ (p.1 = idx ∧ i ≤ p.2) := by
  intro fs
  induction fs with
  | nil => intro i idx p hp; simp [greedyPlaceGo] at hp
  | cons f fs ih =>
      intro i idx p hp
      simp only [greedyPlaceGo] at hp
      by_cases hc : i + f.dtype.width > W
      · rw [if_pos (by simp [hc])] at hp
        rcases (List.mem_cons).1 hp with h1 | h1
        · subst h1; left; omega
        · rcases ih _ _ p h1 with h2 | h2
          · left; omega
          · left; omega
      · rw [if_neg (by simp [hc])] at hp
        rcases (List.mem_cons).1 hp with h1 | h1
        · subst h1; right; exact ⟨by omega, le_refl i⟩
        · rcases ih _ _ p h1 with h2 | h2
          · left; exact h2
          · right; exact ⟨h2.1, by omega⟩

/-- Pairwise no-overlap of the placements from an open-word state: any two
fields placed in the same word occupy disjoint bit ranges (the earlier field
ends at or before the later field's offset). -/
theorem greedyPlaceGo_pairwise (W : Nat) :
    ∀ (fs : List FieldInfo) (i idx : Nat),
      List.Pairwise (fun a b => a.1.1 = b.1.1 → a.1.2 + a.2 ≤ b.1.2)
        ((greedyPlaceGo W fs i (idx + 1) true).zip (fs.map (fun f => f.dtype.width))) := by
  intro fs
  induction fs with
  | nil => intro i idx; simp [greedyPlaceGo]
  | cons f fs ih =>
      intro i idx
      simp only [greedyPlaceGo, List.map_cons]
      by_cases hc : i + f.dtype.width > W
      · rw [if_pos (by simp [hc]), List.zip_cons_cons]
        refine List.pairwise_cons.2 ⟨?_, ih _ _⟩
        rintro ⟨ap, aw⟩ ha heq
        have heq' : idx + 1 = ap.1 := heq
        have hmem := (List.of_mem_zip ha).1
        have h2 := greedyPlaceGo_mono W fs (0 + f.dtype.width) (idx + 1) ap hmem
        show 0 + f.dtype.width ≤ ap.2
        omega
      · rw [if_neg (by simp [hc]), List.zip_cons_cons]
        refine List.pairwise_cons.2 ⟨?_, ih _ _⟩
        rintro ⟨ap, aw⟩ ha heq
        have heq' : idx + 1 - 1 = ap.1 := heq
        have hmem := (List.of_mem_zip ha).1
        have h2 := greedyPlaceGo_mono W fs (i + f.dtype.width) idx ap hmem
        show i + f.dtype.width ≤ ap.2
        omega

/-- Pairwise no-overlap for the full greedy placement. -/
theorem greedyPlace_pairwise (W : Nat) (fields : List FieldInfo) :
    List.Pairwise (fun a b => a.1.1 = b.1.1 → a.1.2 + a.2 ≤ b.1.2)
      ((greedyPlace W fields).zip (fields.map (fun f => f.dtype.width))) := by
  cases fields with
  | nil => simp [greedyPlace, greedyPlaceGo]
  | cons f fs =>
      simp only [greedyPlace, greedyPlaceGo, List.map_cons]
      rw [if_pos (by simp), List.zip_cons_cons]
      refine List.pairwise_cons.2 ⟨?_, greedyPlaceGo_pairwise W fs _ 0⟩
      rintro ⟨ap, aw⟩ ha heq
      have heq' : 0 = ap.1 := heq
      have hmem := (List.of_mem_zip ha).1
      have h2 := greedyPlaceGo_mono W fs (0 + f.dtype.width) 0 ap hmem
      show 0 + f.dtype.width ≤ ap.2
      omega

/-- C1: for every record layout and word width with each field's width at most
the word width, the read-routine and write-routine generators place fields by
the greedy single-pass algorithm (processed in declaration order, placed at
the running offset when the field fits in the open word, otherwise at offset 0
of a newly opened word); consequently every field's bit range lies within one
word, fields sharing a word occupy disjoint bit ranges, and the word counts
used by both generators equal the knapsack-arrival count. -/
theorem C1_greedy_word_packing (fields : List FieldInfo) (W : Nat)
    (h : ∀ f ∈ fields, f.dtype.width ≤ W) :
    readPlacements W fields = greedyPlace W fields
    ∧ writePlacements W fields = greedyPlace W fields
    ∧ (∀ p ∈ (greedyPlace W fields).zip (fields.map (fun f => f.dtype.width)),
        p.1.2 + p.2 ≤ W)
    ∧ List.Pairwise
        (fun a b => a.1.1 = b.1.1 → a.1.2 + a.2 ≤ b.1.2 ∨ b.1.2 + b.2 ≤ a.1.2)
        ((greedyPlace W fields).zip (fields.map (fun f => f.dtype.width)))
    ∧ readWordCount W fields = knapsackCount W fields
    ∧ writeFirstPass W fields 0 0 = knapsackCount W fields := by
  refine ⟨readPlacementsGo_eq_greedy W fields 0 0 false,
          writePlacementsGo_eq_greedy W fields 0 0 false,
          greedyPlaceGo_fits W fields 0 0 false h,
          (greedyPlace_pairwise W fields).imp (fun hab heq => Or.inl (hab heq)),
          readWordCountGo_eq_knapsack W fields 0 0 false,
          ?_⟩
  cases fields with
  | nil => rfl
  | cons f fs =>
      show writeFirstPass W (f :: fs) 0 0 = knapsackCountGo W (f :: fs) 0 0 false
      simp only [writeFirstPass, knapsackCountGo]
      rw [if_pos (Or.inr trivial), if_pos (Or.inl trivial),
        writeFirstPass_eq_knapsack W fs _ 1 (le_refl 1), Nat.zero_add]

/-- Witness for C1 at the two-field scenario (widths 20 and 20, word width
32). -/
theorem C1_greedy_word_packing_witness :
    (∀ f ∈ [(⟨"a", .int 20 false, none, "inline"⟩ : FieldInfo),
            ⟨"b", .int 20 true, none, "inline"⟩], f.dtype.width ≤ 32)
    ∧ (readPlacements 32 [⟨"a", .int 20 false, none, "inline"⟩,
          ⟨"b", .int 20 true, none, "inline"⟩] =
        greedyPlace 32 [⟨"a", .int 20 false, none, "inline"⟩,
          ⟨"b", .int 20 true, none, "inline"⟩]
       ∧ writePlacements 32 [⟨"a", .int 20 false, none, "inline"⟩,
          ⟨"b", .int 20 true, none, "inline"⟩] =
        greedyPlace 32 [⟨"a", .int 20 false, none, "inline"⟩,
          ⟨"b", .int 20 true, none, "inline"⟩]
       ∧ (∀ p ∈ (greedyPlace 32 [⟨"a", .int 20 false, none, "inline"⟩,
            ⟨"b", .int 20 true, none, "inline"⟩]).zip
            (([(⟨"a", .int 20 false, none, "inline"⟩ : FieldInfo),
              ⟨"b", .int 20 true, none, "inline"⟩]).map (fun f => f.dtype.width)),
          p.1.2 + p.2 ≤ 32)
       ∧ List.Pairwise
          (fun a b => a.1.1 = b.1.1 → a.1.2 + a.2 ≤ b.1.2 ∨ b.1.2 + b.2 ≤ a.1.2)
          ((greedyPlace 32 [⟨"a", .int 20 false, none, "inline"⟩,
            ⟨"b", .int 20 true, none, "inline"⟩]).zip
            (([(⟨"a", .int 20 false, none, "inline"⟩ : FieldInfo),
              ⟨"b", .int 20 true, none, "inline"⟩]).map (fun f => f.dtype.width)))
       ∧ readWordCount 32 [⟨"a", .int 20 false, none, "inline"⟩,
          ⟨"b", .int 20 true, none, "inline"⟩] =
        knapsackCount 32 [⟨"a", .int 20 false, none, "inline"⟩,
          ⟨"b", .int 20 true, none, "inline"⟩]
       ∧ writeFirstPass 32 [⟨"a", .int 20 false, none, "inline"⟩,
          ⟨"b", .int 20 true, none, "inline"⟩] 0 0 =
        knapsackCount 32 [⟨"a", .int 20 false, none, "inline"⟩,
          ⟨"b", .int 20 true, none, "inline"⟩]) :=
  ⟨by decide,
   C1_greedy_word_packing
     [⟨"a", .int 20 false, none, "inline"⟩, ⟨"b", .int 20 true, none, "inline"⟩]
     32 (by decide)⟩

/-! ## Per-field encode/decode error behavior. -/

theorem read_expr_ok_of_le (t : BaseType) (word_name : String) (W i : Nat)
    (h : i + t.width ≤ W) : ∃ s, t.read_expr word_name W i = .ok s := by
  cases t with
  | int w sg =>
      simp only [BaseType.width] at h
      simp only [BaseType.read_expr, BaseType.read_expr_impl, BaseType.width]
      rw [if_neg (by omega)]
      split_ifs <;> exact ⟨_, rfl⟩
  | float =>
      simp only [BaseType.width] at h
      simp only [BaseType.read_expr, BaseType.read_expr_impl, BaseType.width]
      rw [if_neg (by omega), if_neg (by omega)]
      exact ⟨_, rfl⟩
  | enum n es w =>
      simp only [BaseType.width] at h
      simp only [BaseType.read_expr, BaseType.read_expr_impl, BaseType.width]
      rw [if_neg (by omega)]
      split_ifs <;> exact ⟨_, rfl⟩

theorem write_expr_ok_of_le (t : BaseType) (var_name word_name : String) (W i : Nat)
    (h : i + t.width ≤ W) : ∃ s, t.write_expr var_name word_name W i = .ok s := by
  cases t with
  | int w sg =>
      simp only [BaseType.width] at h
      simp only [BaseType.write_expr, BaseType.write_expr_impl, BaseType.width]
      rw [if_neg (by omega)]
      split_ifs <;> exact ⟨_, rfl⟩
  | float =>
      simp only [BaseType.width] at h
      simp only [BaseType.write_expr, BaseType.write_expr_impl, BaseType.width]
      rw [if_neg (by omega), if_neg (by omega)]
      exact ⟨_, rfl⟩
  | enum n es w =>
      simp only [BaseType.width] at h
      simp only [BaseType.write_expr, BaseType.write_expr_impl, BaseType.width]
      rw [if_neg (by omega)]
      split_ifs <;> exact ⟨_, rfl⟩

theorem read_expr_error_of_gt (t : BaseType) (word_name : String) (W i : Nat)
    (h : W < i + t.width) :
    t.read_expr word_name W i =
      .error "Type bitwidth exceeds word bitwidth at given index." := by
  simp only [BaseType.read_expr]
  rw [if_pos (by omega)]

theorem write_expr_error_of_gt (t : BaseType) (var_name word_name : String) (W i : Nat)
    (h : W < i + t.width) :
    t.write_expr var_name word_name W i =
      .error "Type bitwidth exceeds word bitwidth at given index." := by
  simp only [BaseType.write_expr]
  rw [if_pos (by omega)]

/-- C5: for every type descriptor variant, word width and bit offset, the
per-field decode (`read_expr`) and encode (`write_expr`) raise a
width-overflow failure exactly when `ind0 + width > word_width`, and return a
result without raising otherwise. -/
theorem C5_width_overflow_iff (t : BaseType) (word_name var_name : String) (W i : Nat) :
    ((∃ e, t.read_expr word_name W i = .error e) ↔ W < i + t.width)
    ∧ ((∃ e, t.write_expr var_name word_name W i = .error e) ↔ W < i + t.width) := by
  constructor
  · constructor
    · rintro ⟨e, he⟩
      by_cases h : W < i + t.width
      · exact h
      · obtain ⟨s, hs⟩ := read_expr_ok_of_le t word_name W i (by omega)
        rw [hs] at he
        exact Except.noConfusion he
    · intro h
      exact ⟨_, read_expr_error_of_gt t word_name W i h⟩
  · constructor
    · rintro ⟨e, he⟩
      by_cases h : W < i + t.width
      · exact h
      · obtain ⟨s, hs⟩ := write_expr_ok_of_le t var_name word_name W i (by omega)
        rw [hs] at he
        exact Except.noConfusion he
    · intro h
      exact ⟨_, write_expr_error_of_gt t var_name word_name W i h⟩

/-! ## Enum construction. -/

theorem clog2_three : Nat.clog 2 3 = 2 := by
  have h1 : Nat.clog 2 3 ≤ 2 := (Nat.le_pow_iff_clog_le (by norm_num)).1 (by norm_num)
  have h2 : 1 < Nat.clog 2 3 := (Nat.pow_lt_iff_lt_clog (by norm_num)).1 (by norm_num)
  omega

theorem clog2_twelve : Nat.clog 2 12 = 4 := by
  have h1 : Nat.clog 2 12 ≤ 4 := (Nat.le_pow_iff_clog_le (by norm_num)).1 (by norm_num)
  have h2 : 3 < Nat.clog 2 12 := (Nat.pow_lt_iff_lt_clog (by norm_num)).1 (by norm_num)
  omega

/-- C4: an Enum constructed without an explicit width gets width
`max(1, ceil(log2(next_auto_value)))` for the final auto-counter value (bare
labels take the next auto value starting at 0, explicit pairs reset the
counter to value+1); the width is enough bits for all auto-assigned values;
entries ["A","B","C"] give width 2, and ["A",("B",10),"C"] resume the counter
at 11 for "C" and give width 4. -/
theorem C4_enum_default_width (name : String) (entries : List EnumEntry)
    (pairs : List (String × Int)) (next_val : Int)
    (hp : processEntries entries 0 = (pairs, next_val)) (h1 : 1 ≤ next_val) :
    mkEnumType name entries none =
      .ok (.enum name pairs (max 1 (Nat.clog 2 next_val.toNat)))
    ∧ next_val.toNat ≤ 2 ^ max 1 (Nat.clog 2 next_val.toNat)
    ∧ mkEnumType "E" [.label "A", .label "B", .label "C"] none =
        .ok (.enum "E" [("A", 0), ("B", 1), ("C", 2)] 2)
    ∧ mkEnumType "E" [.label "A", .pair "B" 10, .label "C"] none =
        .ok (.enum "E" [("A", 0), ("B", 10), ("C", 11)] 4) := by
  refine ⟨?_, ?_, ?_, ?_⟩
  · simp only [mkEnumType, hp]
    rw [if_neg (by omega)]
  · calc next_val.toNat ≤ 2 ^ Nat.clog 2 next_val.toNat :=
          Nat.le_pow_clog (by norm_num) _
      _ ≤ 2 ^ max 1 (Nat.clog 2 next_val.toNat) :=
          Nat.pow_le_pow_right (by norm_num) (le_max_right _ _)
  · have hc : processEntries [EnumEntry.label "A", .label "B", .label "C"] 0 =
        ([("A", 0), ("B", 1), ("C", 2)], 3) := rfl
    simp only [mkEnumType, hc]
    rw [if_neg (by omega), show Int.toNat 3 = 3 from rfl, clog2_three]
    rfl
  · have hc : processEntries [EnumEntry.label "A", .pair "B" 10, .label "C"] 0 =
        ([("A", 0), ("B", 10), ("C", 11)], 12) := rfl
    simp only [mkEnumType, hc]
    rw [if_neg (by omega), show Int.toNat 12 = 12 from rfl, clog2_twelve]
    rfl

/-- Witness for C4 at the single-entry enum ["A"]. -/
theorem C4_enum_default_width_witness :
    processEntries [EnumEntry.label "A"] 0 = ([("A", 0)], 1) ∧ (1 : Int) ≤ 1 ∧
    (mkEnumType "E0" [.label "A"] none =
      .ok (.enum "E0" [("A", 0)] (max 1 (Nat.clog 2 (1 : Int).toNat)))
    ∧ (1 : Int).toNat ≤ 2 ^ max 1 (Nat.clog 2 (1 : Int).toNat)
    ∧ mkEnumType "E" [.label "A", .label "B", .label "C"] none =
        .ok (.enum "E" [("A", 0), ("B", 1), ("C", 2)] 2)
    ∧ mkEnumType "E" [.label "A", .pair "B" 10, .label "C"] none =
        .ok (.enum "E" [("A", 0), ("B", 10), ("C", 11)] 4)) :=
  ⟨rfl, by decide,
   C4_enum_default_width "E0" [.label "A"] [("A", 0)] 1 rfl (by decide)⟩

/-- C10: constructing an Enum from an empty entries list without an explicit
width always fails with the math domain error raised by `log2(0)`. -/
theorem C10_empty_enum_entries_fail (name : String) :
    mkEnumType name [] none = .error "math domain error" := rfl

/-! ## Dispatch with no configured widths, and zero-field routines. -/

/-- C8: with an empty width set the dispatcher generator does not raise; it
returns a write stub and a read stub whose `static_assert(sizeof(Tstream) == 0`
condition can never hold for an instantiated template, with a message naming
the record. -/
theorem C8_empty_widths_dispatch (name : String) :
    genStreamDispatch name [] =
      (String.intercalate "\n"
        ["    template<typename Tstream>",
         "    void stream_write(hls::stream<Tstream>& out, bool tlast = true) const \x7b",
         "        static_assert(sizeof(Tstream) == 0, ",
         "                     \"No stream bus widths configured for " ++ name ++ "\");",
         "    \x7d"],
       String.intercalate "\n"
        ["    template<typename Tstream>",
         "    bool stream_read(hls::stream<Tstream>& in) \x7b",
         "        static_assert(sizeof(Tstream) == 0, ",
         "                     \"No stream bus widths configured for " ++ name ++ "\");",
         "        return false;",
         "    \x7d"]) := rfl

/-- C9: with zero fields, the write generator succeeds and emits a routine
with no `out.write` call at all (header and closing brace only), and the read
generator succeeds but interpolates the unset word variable, producing the
literal line `bool tlast = None.last;`. -/
theorem C9_zero_fields (name : String) (W : Nat) :
    genStreamRead name [] W =
      .ok (String.intercalate "\n" (readHeaderLines name W ++
        ["        bool tlast = None.last;",
         "",
         "        return tlast;",
         "    \x7d"]))
    ∧ genStreamWrite name [] W =
      .ok (String.intercalate "\n" (writeHeaderLines name W ++ ["    \x7d"])) :=
  ⟨rfl, rfl⟩

/-! ## The too-wide-field precondition. -/

/-- C6: whenever some field is wider than the requested word width, both the
read-routine and the write-routine generators fail with the FieldTooWide
error, producing no routine text. -/
theorem C6_field_too_wide (name : String) (fields : List FieldInfo) (W : Nat)
    (h : ∃ f ∈ fields, W < f.dtype.width) :
    (∃ e, genStreamRead name fields W = .error e)
    ∧ (∃ e, genStreamWrite name fields W = .error e) := by
  have hf : (fieldTooWide fields W).isSome := by
    rcases h with ⟨f, hfm, hw⟩
    exact List.find?_isSome.2 ⟨f, hfm, by simpa using hw⟩
  obtain ⟨f, hfe⟩ := Option.isSome_iff_exists.1 hf
  constructor
  · refine ⟨fieldTooWideMsg f W, ?_⟩
    unfold genStreamRead
    rw [hfe]
  · refine ⟨fieldTooWideMsg f W, ?_⟩
    unfold genStreamWrite
    rw [hfe]

/-- Witness for C6 with a 40-bit field and a 32-bit word. -/
theorem C6_field_too_wide_witness :
    (∃ f ∈ [(⟨"x", .int 40 true, none, "inline"⟩ : FieldInfo)], 32 < f.dtype.width)
    ∧ ((∃ e, genStreamRead "S" [⟨"x", .int 40 true, none, "inline"⟩] 32 = .error e)
       ∧ (∃ e, genStreamWrite "S" [⟨"x", .int 40 true, none, "inline"⟩] 32 = .error e)) :=
  ⟨⟨⟨"x", .int 40 true, none, "inline"⟩, by simp, by decide⟩,
   C6_field_too_wide "S" [⟨"x", .int 40 true, none, "inline"⟩] 32
     ⟨⟨"x", .int 40 true, none, "inline"⟩, by simp, by decide⟩⟩

/-! ## Float encode/decode shape. -/

/-- C2 counterexample: at word width 32 and offset 0 the float decode does not
extract the slice `[31, 0]` — it assigns the whole word to the union — so the
claim that decode is always slice-based fails at this input. -/
theorem C2_float_counterexample :
    BaseType.float.read_expr "w" 32 0 ≠
      .ok ("union \x7b float f; ap_uint<32> u; \x7d conv;\n        conv.u = w.range(31, 0);\n        /* assign to variable */ conv.f")
    ∧ BaseType.float.read_expr "w" 32 0 =
      .ok ("union \x7b float f; ap_uint<32> u; \x7d conv;\n        conv.u = w;\n        /* assign to variable */ conv.f") := by
  constructor
  · intro h
    have h2 : BaseType.float.read_expr "w" 32 0 =
        .ok ("union \x7b float f; ap_uint<32> u; \x7d conv;\n        conv.u = w;\n        /* assign to variable */ conv.f") := rfl
    rw [h2] at h
    exact absurd (Except.ok.inj h) (by decide)
  · rfl

/-- C2 (amended): for `i + 32 <= w`, float decode extracts the 32-bit slice
`[i+31, i]` and reinterprets it through the union except when `w = 32` and
`i = 0`, where it feeds the whole word to the union instead of a slice; float
encode always reinterprets through the union and writes the slice `[i+31, i]`. -/
theorem C2_float_slice_amended (word_name var_name : String) (W i : Nat)
    (h : i + 32 ≤ W) :
    (¬(W = 32 ∧ i = 0) →
      BaseType.float.read_expr word_name W i =
        .ok ("union \x7b float f; ap_uint<32> u; \x7d conv;\n        conv.u = " ++
          (word_name ++ ".range(" ++ toString (i + 31) ++ ", " ++ toString i ++ ")") ++
          ";\n        /* assign to variable */ conv.f"))
    ∧ (W = 32 ∧ i = 0 →
      BaseType.float.read_expr word_name W i =
        .ok ("union \x7b float f; ap_uint<32> u; \x7d conv;\n        conv.u = " ++
          word_name ++ ";\n        /* assign to variable */ conv.f"))
    ∧ BaseType.float.write_expr var_name word_name W i =
      .ok ("union \x7b float f; ap_uint<32> u; \x7d conv;\n        conv.f = " ++
        var_name ++ ";\n        " ++ word_name ++ ".range(" ++ toString (i + 31) ++
        ", " ++ toString i ++ ") = conv.u;") := by
  refine ⟨?_, ?_, ?_⟩
  · intro hne
    simp only [BaseType.read_expr, BaseType.width]
    rw [if_neg (by omega)]
    simp only [BaseType.read_expr_impl]
    rw [if_neg (by omega), if_neg (by rintro ⟨h1, h2⟩; exact hne ⟨h1.symm, h2⟩)]
  · rintro ⟨hW, hi⟩
    subst hW; subst hi
    rfl
  · simp only [BaseType.write_expr, BaseType.width]
    rw [if_neg (by omega)]
    simp only [BaseType.write_expr_impl]
    rw [if_neg (by omega)]

/-- Witness for the amended C2 at word width 64, offset 0. -/
theorem C2_float_slice_amended_witness :
    0 + 32 ≤ 64 ∧
    ((¬((64 : Nat) = 32 ∧ (0 : Nat) = 0) →
      BaseType.float.read_expr "w" 64 0 =
        .ok ("union \x7b float f; ap_uint<32> u; \x7d conv;\n        conv.u = " ++
          ("w" ++ ".range(" ++ toString (0 + 31) ++ ", " ++ toString 0 ++ ")") ++
          ";\n        /* assign to variable */ conv.f"))
    ∧ ((64 : Nat) = 32 ∧ (0 : Nat) = 0 →
      BaseType.float.read_expr "w" 64 0 =
        .ok ("union \x7b float f; ap_uint<32> u; \x7d conv;\n        conv.u = " ++
          "w" ++ ";\n        /* assign to variable */ conv.f"))
    ∧ BaseType.float.write_expr "v" "w" 64 0 =
      .ok ("union \x7b float f; ap_uint<32> u; \x7d conv;\n        conv.f = " ++
        "v" ++ ";\n        " ++ "w" ++ ".range(" ++ toString (0 + 31) ++
        ", " ++ toString 0 ++ ") = conv.u;")) :=
  ⟨by decide, C2_float_slice_amended "w" "v" 64 0 (by decide)⟩

/-! ## Characterization of the generated write routine (word blocks). -/

/-- The statement text `write_expr` produces when the field fits
(`ind0 + width <= word_width`): total rendering of `write_expr_impl`. -/
def writeStmtT (t : BaseType) (var_name word_name : String) (W i : Nat) : String :=
  match t with
  | .int w _ =>
      if w = W ∧ i = 0 then word_name ++ " = " ++ var_name ++ ";"
      else word_name ++ ".range(" ++ toString ((i : Int) + w - 1) ++ ", " ++
        toString i ++ ") = " ++ var_name ++ ";"
  | .float =>
      "union \x7b float f; ap_uint<32> u; \x7d conv;\n        conv.f = " ++
        var_name ++ ";\n        " ++ word_name ++ ".range(" ++ toString (i + 31) ++
        ", " ++ toString i ++ ") = conv.u;"
  | .enum _ _ w =>
      if w = W ∧ i = 0 then word_name ++ " = " ++ var_name ++ ";"
      else word_name ++ ".range(" ++ toString ((i : Int) + w - 1) ++ ", " ++
        toString i ++ ") = " ++ var_name ++ ";"

theorem write_expr_eq_writeStmtT (t : BaseType) (vn wn : String) (W i : Nat)
    (h : i + t.width ≤ W) :
    t.write_expr vn wn W i = .ok (writeStmtT t vn wn W i) := by
  cases t with
  | int w sg =>
      simp only [BaseType.width] at h
      simp only [BaseType.write_expr, BaseType.write_expr_impl, BaseType.width, writeStmtT]
      rw [if_neg (by omega)]
      split_ifs <;> rfl
  | float =>
      simp only [BaseType.width] at h
      simp only [BaseType.write_expr, BaseType.write_expr_impl, BaseType.width, writeStmtT]
      rw [if_neg (by omega), if_neg (by omega)]
  | enum n es w =>
      simp only [BaseType.width] at h
      simp only [BaseType.write_expr, BaseType.write_expr_impl, BaseType.width, writeStmtT]
      rw [if_neg (by omega)]
      split_ifs <;> rfl

/-- The maximal run of fields the greedy pass appends to the current word
starting at running offset `ind0`, and the fields left over for later words. -/
def takeFit (W : Nat) : List FieldInfo → Nat → List FieldInfo × List FieldInfo
  | [], _ => ([], [])
  | f :: fs, ind0 =>
      if ind0 + f.dtype.width > W then ([], f :: fs)
      else
        let r := takeFit W fs (ind0 + f.dtype.width)
        (f :: r.1, r.2)

theorem takeFit_snd_length (W : Nat) :
    ∀ (fs : List FieldInfo) (i : Nat), ((takeFit W fs i).2).length ≤ fs.length := by
  intro fs
  induction fs with
  | nil => intro i; simp [takeFit]
  | cons f fs ih =>
      intro i
      simp only [takeFit]
      split_ifs with hc
      · simp
      · exact le_trans (ih (i + f.dtype.width)) (by simp)

/-- The greedy partition of the field list into words: each chunk is the run
of fields packed into one word. -/
def chunks (W : Nat) : List FieldInfo → List (List FieldInfo)
  | [] => []
  | f :: fs =>
      (f :: (takeFit W fs f.dtype.width).1) :: chunks W (takeFit W fs f.dtype.width).2
termination_by fs => fs.length
decreasing_by
  simp only [List.length_cons]
  exact Nat.lt_succ_of_le (takeFit_snd_length W fs f.dtype.width)

theorem chunks_nil (W : Nat) : chunks W [] = [] := by
  rw [chunks]

theorem chunks_cons (W : Nat) (f : FieldInfo) (fs : List FieldInfo) :
    chunks W (f :: fs) =
      (f :: (takeFit W fs f.dtype.width).1) :: chunks W (takeFit W fs f.dtype.width).2 := by
  rw [chunks]

theorem chunks_eq_nil_iff (W : Nat) (fs : List FieldInfo) :
    chunks W fs = [] ↔ fs = [] := by
  cases fs with
  | nil => simp [chunks_nil]
  | cons f fs => simp [chunks_cons]

/-- The encode statements of one chunk, at cumulative offsets starting from
`off`, into the word data lvalue `wvd`. -/
def encChunk (W : Nat) (wvd : String) : List FieldInfo → Nat → List String
  | [], _ => []
  | f :: fs, off =>
      ("        " ++ writeStmtT f.dtype f.name wvd W off) ::
      encChunk W wvd fs (off + f.dtype.width)

/-- The write-loop body text, chunk by chunk, starting at word index `k`: each
word is declared and zero-initialized, its fields are encoded, and every word
except the last is flushed with `last = false` followed by `out.write`. -/
def writeBodyChar (W : Nat) : List (List FieldInfo) → Nat → List String
  | [], _ => []
  | c :: cs, k =>
      ("        Tstream " ++ ("w" ++ toString k) ++ ";") ::
      ("        " ++ ("w" ++ toString k) ++ ".data = 0;") ::
      ("        " ++ ("w" ++ toString k) ++ ".keep = -1;") ::
      ("        " ++ ("w" ++ toString k) ++ ".strb = -1;") ::
      (encChunk W ("w" ++ toString k ++ ".data") c 0 ++
       match cs with
       | [] => []
       | _ :: _ =>
         ("        " ++ ("w" ++ toString k) ++ ".last = false;") ::
         ("        out.write(" ++ ("w" ++ toString k) ++ ");") ::
         "" :: writeBodyChar W cs (k + 1))

/-- Characterization of the write loop from an open-word state: it encodes the
fields that fit into the current word at their running offsets, then (if
fields remain) flushes the current word with `last = false` and continues with
the chunked body for the remaining words. -/
theorem writeLoop_fit (W : Nat) :
    ∀ (fs : List FieldInfo) (ind0 wc : Nat) (v : String),
      (∀ f ∈ fs, f.dtype.width ≤ W) →
      writeLoop W fs ind0 wc (some v) =
        .ok (encChunk W (v ++ ".data") (takeFit W fs ind0).1 ind0 ++
          (match (takeFit W fs ind0).2 with
           | [] => []
           | _ :: _ =>
             ("        " ++ v ++ ".last = false;") ::
             ("        out.write(" ++ v ++ ");") ::
             "" :: writeBodyChar W (chunks W (takeFit W fs ind0).2) wc),
         match (takeFit W fs ind0).2 with
         | [] => some v
         | _ :: _ => some ("w" ++ toString (wc + (chunks W (takeFit W fs ind0).2).length - 1))) := by
  intro fs
  induction fs with
  | nil =>
      intro ind0 wc v _
      simp [writeLoop, takeFit, encChunk]
  | cons f fs ih =>
      intro ind0 wc v h
      have hfw : f.dtype.width ≤ W := h f (by simp)
      have hrest : ∀ g ∈ fs, g.dtype.width ≤ W := fun g hg => h g (by simp [hg])
      by_cases hc : ind0 + f.dtype.width > W
      · -- the field does not fit: flush the current word and open a new one
        rw [writeLoop]
        simp only []
        rw [if_pos hc]
        rw [write_expr_eq_writeStmtT _ _ _ _ _ (by omega)]
        rw [ih (0 + f.dtype.width) (wc + 1) ("w" ++ toString wc) hrest]
        simp only [takeFit]
        rw [if_pos hc]
        rw [chunks_cons]
        simp only [Nat.zero_add]
        cases htf : (takeFit W fs f.dtype.width).2 with
        | nil =>
            simp [chunks_nil, writeBodyChar, encChunk]
            rfl
        | cons g gs =>
            have harith : wc + 1 + (chunks W (takeFit W gs g.dtype.width).2).length =
                wc + ((chunks W (takeFit W gs g.dtype.width).2).length + 1) := by omega
            simp [writeBodyChar, encChunk, chunks_cons, harith]
            rfl
      · rw [writeLoop]
        simp only []
        rw [if_neg hc]
        rw [write_expr_eq_writeStmtT _ _ _ _ _ (by omega)]
        rw [ih (ind0 + f.dtype.width) wc v hrest]
        simp only [takeFit]
        rw [if_neg hc]
        simp [encChunk]
        rfl

/-- Characterization of the write loop from the no-open-word state: the output
is exactly the chunked body, and the final open word is `w{wc + #chunks - 1}`. -/
theorem writeLoop_open (W : Nat) (fs : List FieldInfo) (ind0 wc : Nat)
    (hne : fs ≠ []) (h : ∀ f ∈ fs, f.dtype.width ≤ W) :
    writeLoop W fs ind0 wc none =
      .ok (writeBodyChar W (chunks W fs) wc,
           some ("w" ++ toString (wc + (chunks W fs).length - 1))) := by
  cases fs with
  | nil => exact absurd rfl hne
  | cons f fs =>
      have hfw : f.dtype.width ≤ W := h f (by simp)
      have hrest : ∀ g ∈ fs, g.dtype.width ≤ W := fun g hg => h g (by simp [hg])
      rw [writeLoop]
      rw [write_expr_eq_writeStmtT _ _ _ _ _ (by omega)]
      rw [writeLoop_fit W fs (0 + f.dtype.width) (wc + 1) ("w" ++ toString wc) hrest]
      rw [chunks_cons]
      simp only [Nat.zero_add]
      cases htf : (takeFit W fs f.dtype.width).2 with
      | nil =>
          simp [chunks_nil, writeBodyChar, encChunk]
          rfl
      | cons g gs =>
          have harith : wc + 1 + (chunks W (takeFit W gs g.dtype.width).2).length =
              wc + ((chunks W (takeFit W gs g.dtype.width).2).length + 1) := by omega
          simp [writeBodyChar, encChunk, chunks_cons, harith]
          rfl

theorem knapsackGo_chunks (W : Nat) :
    ∀ (fs : List FieldInfo) (i n : Nat),
      knapsackCountGo W fs i n true = n + (chunks W (takeFit W fs i).2).length := by
  intro fs
  induction fs with
  | nil => intro i n; simp [knapsackCountGo, takeFit, chunks_nil]
  | cons f fs ih =>
      intro i n
      simp only [knapsackCountGo, takeFit]
      by_cases hc : i + f.dtype.width > W
      · rw [if_pos (by simp [hc]), if_pos hc, ih]
        rw [chunks_cons]
        simp only [List.length_cons, Nat.zero_add]
        omega
      · rw [if_neg (by simp [hc]), if_neg hc, ih]

theorem chunks_length_eq_knapsack (W : Nat) (fs : List FieldInfo) :
    (chunks W fs).length = knapsackCount W fs := by
  cases fs with
  | nil => simp [chunks_nil, knapsackCount, knapsackCountGo]
  | cons f fs =>
      simp only [knapsackCount, knapsackCountGo]
      rw [if_pos (Or.inl trivial), knapsackGo_chunks, chunks_cons]
      simp only [List.length_cons, Nat.zero_add]
      omega

/-- The generated write routine, one block per word: the word is declared,
zero-initialized, its fields encoded, and it is emitted exactly once — with
`last = false` for every word but the final one, which gets `last = tlast`. -/
def writeWordBlocks (W : Nat) : List (List FieldInfo) → Nat → List (List String)
  | [], _ => []
  | c :: cs, k =>
      (("        Tstream " ++ ("w" ++ toString k) ++ ";") ::
       ("        " ++ ("w" ++ toString k) ++ ".data = 0;") ::
       ("        " ++ ("w" ++ toString k) ++ ".keep = -1;") ::
       ("        " ++ ("w" ++ toString k) ++ ".strb = -1;") ::
       (encChunk W ("w" ++ toString k ++ ".data") c 0 ++
        match cs with
        | [] => [("        " ++ ("w" ++ toString k) ++ ".last = tlast;"),
                 ("        out.write(" ++ ("w" ++ toString k) ++ ");")]
        | _ :: _ => [("        " ++ ("w" ++ toString k) ++ ".last = false;"),
                 ("        out.write(" ++ ("w" ++ toString k) ++ ");"),
                 ""])) ::
      writeWordBlocks W cs (k + 1)

theorem writeWordBlocks_length (W : Nat) :
    ∀ (cs : List (List FieldInfo)) (k : Nat),
      (writeWordBlocks W cs k).length = cs.length := by
  intro cs
  induction cs with
  | nil => intro k; rfl
  | cons c cs ih => intro k; simp [writeWordBlocks, ih]

theorem writeWordBlocks_flatten (W : Nat) :
    ∀ (cs : List (List FieldInfo)) (k : Nat), cs ≠ [] →
      (writeWordBlocks W cs k).flatten =
        writeBodyChar W cs k ++
          [("        " ++ ("w" ++ toString (k + cs.length - 1)) ++ ".last = tlast;"),
           ("        out.write(" ++ ("w" ++ toString (k + cs.length - 1)) ++ ");")] := by
  intro cs
  induction cs with
  | nil => intro k hne; exact absurd rfl hne
  | cons c cs ih =>
      intro k _
      cases cs with
      | nil => simp [writeWordBlocks, writeBodyChar]
      | cons c2 cs2 =>
          have harith : k + 1 + (c2 :: cs2).length - 1 = k + (c :: c2 :: cs2).length - 1 := by
            simp only [List.length_cons]; omega
          rw [writeWordBlocks, List.flatten_cons, ih (k + 1) (by simp), harith]
          simp only [writeBodyChar]
          simp [List.append_assoc]

theorem writeWordBlocks_get (W : Nat) :
    ∀ (cs : List (List FieldInfo)) (k j : Nat) (hj : j < (writeWordBlocks W cs k).length),
      ∃ c, (writeWordBlocks W cs k).get ⟨j, hj⟩ =
        ("        Tstream " ++ ("w" ++ toString (k + j)) ++ ";") ::
        ("        " ++ ("w" ++ toString (k + j)) ++ ".data = 0;") ::
        ("        " ++ ("w" ++ toString (k + j)) ++ ".keep = -1;") ::
        ("        " ++ ("w" ++ toString (k + j)) ++ ".strb = -1;") ::
        (encChunk W ("w" ++ toString (k + j) ++ ".data") c 0 ++
          (if j + 1 = cs.length
           then [("        " ++ ("w" ++ toString (k + j)) ++ ".last = tlast;"),
                 ("        out.write(" ++ ("w" ++ toString (k + j)) ++ ");")]
           else [("        " ++ ("w" ++ toString (k + j)) ++ ".last = false;"),
                 ("        out.write(" ++ ("w" ++ toString (k + j)) ++ ");"),
                 ""])) := by
  intro cs
  induction cs with
  | nil => intro k j hj; simp [writeWordBlocks] at hj
  | cons c cs ih =>
      intro k j hj
      cases j with
      | zero =>
          refine ⟨c, ?_⟩
          cases cs with
          | nil => simp [writeWordBlocks]
          | cons c2 cs2 =>
              have hne : ¬ ((0 : Nat) + 1 = (c :: c2 :: cs2 : List (List FieldInfo)).length) := by
                simp
              rw [if_neg hne]
              simp [writeWordBlocks]
      | succ j' =>
          have hj' : j' < (writeWordBlocks W cs (k + 1)).length := by
            have := hj
            simp only [writeWordBlocks, List.length_cons] at this
            omega
          obtain ⟨c', hc'⟩ := ih (k + 1) j' hj'
          refine ⟨c', ?_⟩
          have hget : (writeWordBlocks W (c :: cs) k).get ⟨j' + 1, hj⟩ =
              (writeWordBlocks W cs (k + 1)).get ⟨j', hj'⟩ := by
            simp [writeWordBlocks]
          rw [hget, hc', show k + 1 + j' = k + (j' + 1) from by omega]
          by_cases hcond : j' + 1 = cs.length
          · rw [if_pos hcond, if_pos (by simp [hcond])]
          · rw [if_neg hcond, if_neg (by simp only [List.length_cons]; omega)]

/-! ## Head-character facts used to show encode lines are never emissions. -/

theorem data_get0_append (s t : String) (c : Char) (h : s.data[0]? = some c) :
    (s ++ t).data[0]? = some c := by
  rw [String.data_append]
  obtain ⟨hlt, _⟩ := List.getElem?_eq_some.1 h
  rw [List.getElem?_append_left hlt]
  exact h

theorem writeStmtT_head (t : BaseType) (vn wvd : String) (W i : Nat) (c : Char)
    (hw : wvd.data[0]? = some c) :
    (writeStmtT t vn wvd W i).data[0]? = some c ∨
    (writeStmtT t vn wvd W i).data[0]? = some 'u' := by
  cases t with
  | int w sg =>
      left
      simp only [writeStmtT]
      split_ifs
      · repeat apply data_get0_append
        exact hw
      · repeat apply data_get0_append
        exact hw
  | float =>
      right
      simp only [writeStmtT]
      repeat apply data_get0_append
      rfl
  | enum n es w =>
      left
      simp only [writeStmtT]
      split_ifs
      · repeat apply data_get0_append
        exact hw
      · repeat apply data_get0_append
        exact hw

theorem ne_outwrite_of_head (l : String) (c : Char) (hc : l.data[0]? = some c)
    (hne : c ≠ 'o') : ∀ s, ("        " ++ l) ≠ "        out.write(" ++ s := by
  intro s he
  have hd := congrArg String.data he
  rw [String.data_append, String.data_append,
    show ("        out.write(" : String).data =
      ("        " : String).data ++ ("out.write(" : String).data from rfl,
    List.append_assoc] at hd
  have hl := List.append_cancel_left hd
  have : l.data[0]? = some 'o' := by
    rw [hl, List.getElem?_append_left (by decide)]
    rfl
  rw [this] at hc
  exact hne (Option.some.inj hc).symm

theorem encChunk_ne_outwrite (W : Nat) (wvd : String) (hw : wvd.data[0]? = some 'w') :
    ∀ (c : List FieldInfo) (off : Nat), ∀ l ∈ encChunk W wvd c off,
      ∀ s, l ≠ "        out.write(" ++ s := by
  intro c
  induction c with
  | nil => intro off l hl; simp [encChunk] at hl
  | cons f fs ih =>
      intro off l hl s
      rcases (List.mem_cons).1 hl with h1 | h1
      · subst h1
        rcases writeStmtT_head f.dtype f.name wvd W off 'w' hw with hh | hh
        · exact ne_outwrite_of_head _ _ hh (by decide) s
        · exact ne_outwrite_of_head _ _ hh (by decide) s
      · exact ih (off + f.dtype.width) l h1 s

/-- C7: for every nonempty record layout whose fields all fit the word width,
the generated write routine consists of one block per word, in word order;
each block declares the word, sets its data to zero before any field encode
into it, contains exactly one emission call (its encode lines are never
`out.write` statements and the block ends with a single `out.write`), marks
every word except the final one with `last = false`, and marks the final word
with the caller-supplied `tlast`. -/
theorem C7_write_routine_blocks (name : String) (fields : List FieldInfo) (W : Nat)
    (h1 : fields ≠ []) (h2 : ∀ f ∈ fields, f.dtype.width ≤ W) :
    ∃ blocks : List (List String),
      genStreamWrite name fields W =
        .ok (String.intercalate "\n"
          (writeHeaderLines name W ++ blocks.flatten ++ ["    \x7d"]))
      ∧ blocks.length = knapsackCount W fields
      ∧ ∀ j (hj : j < blocks.length), ∃ enc : List String,
          blocks.get ⟨j, hj⟩ =
            ("        Tstream " ++ ("w" ++ toString j) ++ ";") ::
            ("        " ++ ("w" ++ toString j) ++ ".data = 0;") ::
            ("        " ++ ("w" ++ toString j) ++ ".keep = -1;") ::
            ("        " ++ ("w" ++ toString j) ++ ".strb = -1;") ::
            (enc ++
              (if j + 1 = blocks.length
               then [("        " ++ ("w" ++ toString j) ++ ".last = tlast;"),
                     ("        out.write(" ++ ("w" ++ toString j) ++ ");")]
               else [("        " ++ ("w" ++ toString j) ++ ".last = false;"),
                     ("        out.write(" ++ ("w" ++ toString j) ++ ");"),
                     ""]))
          ∧ ∀ l ∈ enc, ∀ s, l ≠ "        out.write(" ++ s := by
  have hchne : chunks W fields ≠ [] := fun hc => h1 ((chunks_eq_nil_iff W fields).1 hc)
  refine ⟨writeWordBlocks W (chunks W fields) 0, ?_, ?_, ?_⟩
  · have hfw : fieldTooWide fields W = none :=
      List.find?_eq_none.2 (fun f hf => by simpa using Nat.not_lt.2 (h2 f hf))
    unfold genStreamWrite
    rw [hfw, writeLoop_open W fields 0 0 h1 h2,
      writeWordBlocks_flatten W (chunks W fields) 0 hchne]
    simp [List.append_assoc]
    rfl
  · rw [writeWordBlocks_length, chunks_length_eq_knapsack]
  · intro j hj
    obtain ⟨c, hc⟩ := writeWordBlocks_get W (chunks W fields) 0 j hj
    refine ⟨encChunk W ("w" ++ toString j ++ ".data") c 0, ?_, ?_⟩
    · rw [hc]
      simp only [Nat.zero_add]
      by_cases hcond : j + 1 = (chunks W fields).length
      · rw [if_pos hcond, if_pos (by rw [writeWordBlocks_length]; exact hcond)]
      · rw [if_neg hcond, if_neg (by rw [writeWordBlocks_length]; exact hcond)]
    · intro l hl s
      refine encChunk_ne_outwrite W ("w" ++ toString j ++ ".data") ?_ c 0 l hl s
      apply data_get0_append
      apply data_get0_append
      rfl

/-- Witness for C7 at a single 8-bit field and word width 32. -/
theorem C7_write_routine_blocks_witness :
    (([(⟨"a", .int 8 false, none, "inline"⟩ : FieldInfo)] : List FieldInfo) ≠ []
     ∧ ∀ f ∈ [(⟨"a", .int 8 false, none, "inline"⟩ : FieldInfo)], f.dtype.width ≤ 32)
    ∧ (∃ blocks : List (List String),
      genStreamWrite "S" [⟨"a", .int 8 false, none, "inline"⟩] 32 =
        .ok (String.intercalate "\n"
          (writeHeaderLines "S" 32 ++ blocks.flatten ++ ["    \x7d"]))
      ∧ blocks.length = knapsackCount 32 [⟨"a", .int 8 false, none, "inline"⟩]
      ∧ ∀ j (hj : j < blocks.length), ∃ enc : List String,
          blocks.get ⟨j, hj⟩ =
            ("        Tstream " ++ ("w" ++ toString j) ++ ";") ::
            ("        " ++ ("w" ++ toString j) ++ ".data = 0;") ::
            ("        " ++ ("w" ++ toString j) ++ ".keep = -1;") ::
            ("        " ++ ("w" ++ toString j) ++ ".strb = -1;") ::
            (enc ++
              (if j + 1 = blocks.length
               then [("        " ++ ("w" ++ toString j) ++ ".last = tlast;"),
                     ("        out.write(" ++ ("w" ++ toString j) ++ ");")]
               else [("        " ++ ("w" ++ toString j) ++ ".last = false;"),
                     ("        out.write(" ++ ("w" ++ toString j) ++ ");"),
                     ""]))
          ∧ ∀ l ∈ enc, ∀ s, l ≠ "        out.write(" ++ s) :=
  ⟨⟨by decide, by decide⟩,
   C7_write_routine_blocks "S" [⟨"a", .int 8 false, none, "inline"⟩] 32
     (by decide) (by decide)⟩

/-! ## Auxiliary-declaration (preamble) emission in the include file. -/

/-- C3 counterexample: two fields sharing the same Enum type make the enum's
auxiliary declaration appear twice in the combined output (once per field),
not exactly once as the claim states. -/
theorem C3_dedup_counterexample :
    (genIncludeLines "S" none
        [⟨"a", .enum "E" [("A", 0)] 1, none, "inline"⟩,
         ⟨"b", .enum "E" [("A", 0)] 1, none, "inline"⟩] [32]).map
      (fun lines => lines.count
        "    enum E : unsigned int \x7b\n        A = 0\n    \x7d;") = .ok 2
    ∧ (2 : Nat) ≠ 1 :=
  ⟨rfl, by decide⟩

theorem data_get_append (s t : String) (i : Nat) (c : Char) (h : s.data[i]? = some c) :
    (s ++ t).data[i]? = some c := by
  rw [String.data_append]
  obtain ⟨hlt, _⟩ := List.getElem?_eq_some.1 h
  rw [List.getElem?_append_left hlt]
  exact h

theorem data_get_append_right (s t : String) (i : Nat) (h : s.data.length ≤ i) :
    (s ++ t).data[i]? = t.data[i - s.data.length]? := by
  rw [String.data_append, List.getElem?_append_right h]

/-- Two strings differing at some character position are different. -/
theorem strNeAt (s t : String) (i : Nat) (c d : Char)
    (hs : s.data[i]? = some c) (ht : t.data[i]? = some d) (hcd : c ≠ d) : s ≠ t := by
  intro he
  rw [he, ht] at hs
  exact hcd (Option.some.inj hs).symm

/-- A string whose character list is nonempty at position 0 is not empty. -/
theorem strNeEmpty (s : String) (i : Nat) (c : Char) (hs : s.data[i]? = some c) :
    s ≠ "" := by
  intro he
  rw [he] at hs
  rw [show ("" : String).data = [] from rfl] at hs
  simp at hs

/-- `String.intercalate` of a nonempty list starts with its first element. -/
theorem intercalate_head (sep a : String) (l : List String) :
    ∃ t, String.intercalate sep (a :: l) = a ++ t := by
  suffices hgo : ∀ (l : List String) (acc : String),
      ∃ t, String.intercalate.go acc sep l = acc ++ t by
    exact hgo l a
  intro l
  induction l with
  | nil => intro acc; exact ⟨"", (String.append_empty acc).symm⟩
  | cons b bs ih =>
      intro acc
      obtain ⟨t, ht⟩ := ih (acc ++ sep ++ b)
      refine ⟨sep ++ b ++ t, ?_⟩
      rw [show String.intercalate.go acc sep (b :: bs) =
          String.intercalate.go (acc ++ sep ++ b) sep bs from rfl, ht]
      rw [String.append_assoc, String.append_assoc, String.append_assoc]

/-- The read loop never raises when every field fits the word width. -/
theorem readLoop_ok (W : Nat) :
    ∀ (fs : List FieldInfo) (ind0 wc : Nat) (wv : Option String),
      (∀ f ∈ fs, f.dtype.width ≤ W) →
      ∃ out, readLoop W fs ind0 wc wv = .ok out := by
  intro fs
  induction fs with
  | nil => intro ind0 wc wv _; exact ⟨_, rfl⟩
  | cons f fs ih =>
      intro ind0 wc wv h
      have hfw := h f (by simp)
      have hrest : ∀ g ∈ fs, g.dtype.width ≤ W := fun g hg => h g (by simp [hg])
      obtain ⟨e1, he1⟩ :=
        read_expr_ok_of_le f.dtype ("w" ++ toString wc ++ ".data") W 0 (by omega)
      cases wv with
      | none =>
          obtain ⟨out, hout⟩ := ih (0 + f.dtype.width) (wc + 1) (some ("w" ++ toString wc)) hrest
          have heq : readLoop W (f :: fs) ind0 wc none =
              .ok (("        Tstream " ++ ("w" ++ toString wc) ++ " = in.read();") ::
                   ("        " ++ f.name ++ " = " ++ e1 ++ ";") :: out.1, out.2) := by
            rw [readLoop, he1, hout]
            rfl
          exact ⟨_, heq⟩
      | some v =>
          by_cases hc : ind0 + f.dtype.width > W
          · obtain ⟨out, hout⟩ :=
              ih (0 + f.dtype.width) (wc + 1) (some ("w" ++ toString wc)) hrest
            have heq : readLoop W (f :: fs) ind0 wc (some v) =
                .ok (("        Tstream " ++ ("w" ++ toString wc) ++ " = in.read();") ::
                     ("        " ++ f.name ++ " = " ++ e1 ++ ";") :: out.1, out.2) := by
              rw [readLoop]
              simp only []
              rw [if_pos hc, he1, hout]
              rfl
            exact ⟨_, heq⟩
          · obtain ⟨e2, he2⟩ := read_expr_ok_of_le f.dtype (v ++ ".data") W ind0 (by omega)
            obtain ⟨out, hout⟩ := ih (ind0 + f.dtype.width) wc (some v) hrest
            have heq : readLoop W (f :: fs) ind0 wc (some v) =
                .ok (("        " ++ f.name ++ " = " ++ e2 ++ ";") :: out.1, out.2) := by
              rw [readLoop]
              simp only []
              rw [if_neg hc, he2, hout]
              rfl
            exact ⟨_, heq⟩

/-- The read generator succeeds when every field fits the word width, and its
text starts with the template header line. -/
theorem genStreamRead_ok (name : String) (fields : List FieldInfo) (W : Nat)
    (h : ∀ f ∈ fields, f.dtype.width ≤ W) :
    ∃ t, genStreamRead name fields W =
      .ok ("    template<typename Tstream>" ++ t) := by
  have hfw : fieldTooWide fields W = none :=
    List.find?_eq_none.2 (fun f hf => by simpa using Nat.not_lt.2 (h f hf))
  obtain ⟨out, hout⟩ := readLoop_ok W fields 0 0 none h
  obtain ⟨t, ht⟩ := intercalate_head "\n" "    template<typename Tstream>"
    ((["    bool stream_read_" ++ toString W ++ "(hls::stream<Tstream>& in) \x7b",
       "        constexpr int bus_bits = decltype(Tstream::data)::width;",
       "        static_assert(bus_bits == " ++ toString W ++ ", \"Only " ++ toString W ++
         "-bit stream supported in " ++ name ++ "::stream_read_" ++ toString W ++ "\");",
       ""] ++ out.1) ++
     ["        bool tlast = " ++ pyStr out.2 ++ ".last;",
      "",
      "        return tlast;",
      "    \x7d"])
  refine ⟨t, ?_⟩
  unfold genStreamRead
  rw [hfw, hout]
  exact congrArg Except.ok ht

/-- The write generator succeeds on a nonempty layout whose fields all fit,
and its text starts with the template header line. -/
theorem genStreamWrite_ok (name : String) (fields : List FieldInfo) (W : Nat)
    (h1 : fields ≠ []) (h2 : ∀ f ∈ fields, f.dtype.width ≤ W) :
    ∃ t, genStreamWrite name fields W =
      .ok ("    template<typename Tstream>" ++ t) := by
  have hfw : fieldTooWide fields W = none :=
    List.find?_eq_none.2 (fun f hf => by simpa using Nat.not_lt.2 (h2 f hf))
  obtain ⟨t, ht⟩ := intercalate_head "\n" "    template<typename Tstream>"
    (((["    void stream_write_" ++ toString W ++
          "(hls::stream<Tstream>& out, bool tlast = true) const \x7b",
        "        constexpr int bus_bits = decltype(Tstream::data)::width;",
        "        static_assert(bus_bits == " ++ toString W ++ ", \"Only " ++ toString W ++
          "-bit stream supported in " ++ name ++ "::stream_write_" ++ toString W ++ "\");",
        ""] ++ writeBodyChar W (chunks W fields) 0) ++
      [("        " ++ ("w" ++ toString (0 + (chunks W fields).length - 1)) ++ ".last = tlast;"),
       ("        out.write(" ++ ("w" ++ toString (0 + (chunks W fields).length - 1)) ++ ");")]) ++
     ["    \x7d"])
  refine ⟨t, ?_⟩
  unfold genStreamWrite
  rw [hfw, writeLoop_open W fields 0 0 h1 h2]
  exact congrArg Except.ok ht

theorem genStreamDispatch_fst_head (name : String) (w0 : Nat) (ws : List Nat) :
    ∃ t, (genStreamDispatch name (w0 :: ws)).1 =
      "    template<typename Tstream>" ++ t := by
  obtain ⟨t, ht⟩ := intercalate_head "\n" "    template<typename Tstream>"
    ((["    void stream_write(hls::stream<Tstream>& out, bool tlast = true) const \x7b",
       "        constexpr int bus_bits = decltype(Tstream::data)::width;"] ++
      dispatchBranches
        (fun w => "            stream_write_" ++ toString w ++ "(out, tlast);")
        0 (w0 :: ws)) ++
     ["        \x7d else \x7b",
      "            static_assert(bus_bits == " ++ toString w0 ++ ", ",
      "                         \"Unsupported bus width. Supported widths: " ++
        String.intercalate ", " ((w0 :: ws).map toString) ++ "\");",
      "        \x7d",
      "    \x7d"])
  refine ⟨t, ?_⟩
  rw [← ht]
  rfl

theorem genStreamDispatch_snd_head (name : String) (w0 : Nat) (ws : List Nat) :
    ∃ t, (genStreamDispatch name (w0 :: ws)).2 =
      "    template<typename Tstream>" ++ t := by
  obtain ⟨t, ht⟩ := intercalate_head "\n" "    template<typename Tstream>"
    ((["    bool stream_read(hls::stream<Tstream>& in) \x7b",
       "        constexpr int bus_bits = decltype(Tstream::data)::width;"] ++
      dispatchBranches
        (fun w => "            return stream_read_" ++ toString w ++ "(in);")
        0 (w0 :: ws)) ++
     ["        \x7d else \x7b",
      "            static_assert(bus_bits == " ++ toString w0 ++ ", ",
      "                         \"Unsupported bus width. Supported widths: " ++
        String.intercalate ", " ((w0 :: ws).map toString) ++ "\");",
      "            return false;",
      "        \x7d",
      "    \x7d"])
  refine ⟨t, ?_⟩
  rw [← ht]
  rfl

theorem genEqualityOperator_head (name : String) (fields : List FieldInfo) :
    ∃ t, genEqualityOperator name fields =
      ("    bool operator==(const " ++ name ++ "& other) const \x7b") ++ t := by
  obtain ⟨t, ht⟩ := intercalate_head "\n"
    ("    bool operator==(const " ++ name ++ "& other) const \x7b")
    ["        return " ++ String.intercalate " && "
       (fields.map (fun f => "(this->" ++ f.name ++ " == other." ++ f.name ++ ")")) ++ ";",
     "    \x7d"]
  exact ⟨t, ht⟩

theorem genStringMethod_head (fields : List FieldInfo) :
    ∃ t, genStringMethod fields =
      "    std::string to_string() const \x7b" ++ t := by
  obtain ⟨t, ht⟩ := intercalate_head "\n" "    std::string to_string() const \x7b"
    (["        std::ostringstream oss;",
      "        oss << \"\x7b\";"] ++
     toStringFieldLines fields ++
     ["        oss << \"\x7d\";",
      "        return oss.str();",
      "    \x7d"])
  refine ⟨t, ?_⟩
  rw [← ht]
  rfl

/-- C3 (amended): the combined include text emits a shared auxiliary
declaration once per field whose type carries it — it is not deduplicated —
and those copies appear before the field declarations: with two fields sharing
one Enum type the declaration line appears exactly twice in the output. -/
theorem C3_preamble_per_field_amended (rname ename n1 n2 : String)
    (pairs : List (String × Int)) (w : Nat) (hw : w ≤ 32) :
    ∃ p tail,
      (BaseType.enum ename pairs w).preamble = some p
      ∧ genIncludeLines rname none
          [⟨n1, .enum ename pairs w, none, "inline"⟩,
           ⟨n2, .enum ename pairs w, none, "inline"⟩] [32] =
        .ok (includeHeaderLines rname (guardName (pyLower rname ++ ".h")) ++
          ("    " ++ p) :: "" :: ("    " ++ p) :: "" ::
          (FieldInfo.mk n1 (.enum ename pairs w) none "inline").cpp_decl ::
          (FieldInfo.mk n2 (.enum ename pairs w) none "inline").cpp_decl :: "" :: tail)
      ∧ (includeHeaderLines rname (guardName (pyLower rname ++ ".h")) ++
          ("    " ++ p) :: "" :: ("    " ++ p) :: "" ::
          (FieldInfo.mk n1 (.enum ename pairs w) none "inline").cpp_decl ::
          (FieldInfo.mk n2 (.enum ename pairs w) none "inline").cpp_decl :: "" ::
          tail).count ("    " ++ p) = 2 := by
  have h2 : ∀ f ∈ [(⟨n1, .enum ename pairs w, none, "inline"⟩ : FieldInfo),
      ⟨n2, .enum ename pairs w, none, "inline"⟩], f.dtype.width ≤ 32 := by
    intro f hf
    rcases (List.mem_cons).1 hf with hf1 | hf1
    · subst hf1; exact hw
    · rcases (List.mem_cons).1 hf1 with hf2 | hf2
      · subst hf2; exact hw
      · simp at hf2
  obtain ⟨rt, hrt⟩ := genStreamRead_ok rname
    [⟨n1, .enum ename pairs w, none, "inline"⟩,
     ⟨n2, .enum ename pairs w, none, "inline"⟩] 32 h2
  obtain ⟨wt, hwt⟩ := genStreamWrite_ok rname
    [⟨n1, .enum ename pairs w, none, "inline"⟩,
     ⟨n2, .enum ename pairs w, none, "inline"⟩] 32 (by simp) h2
  refine ⟨"enum " ++ ename ++ " : unsigned int \x7b\n        " ++
      String.intercalate ",\n        "
        (pairs.map (fun e => e.1 ++ " = " ++ toString e.2)) ++ "\n    \x7d;",
    ["    template<typename Tstream>" ++ rt, "",
     "    template<typename Tstream>" ++ wt, "",
     (genStreamDispatch rname [32]).1, "", (genStreamDispatch rname [32]).2, "",
     genEqualityOperator rname
       [⟨n1, .enum ename pairs w, none, "inline"⟩,
        ⟨n2, .enum ename pairs w, none, "inline"⟩], "",
     genStringMethod
       [⟨n1, .enum ename pairs w, none, "inline"⟩,
        ⟨n2, .enum ename pairs w, none, "inline"⟩], "",
     "\x7d;", "", "#endif // " ++ guardName (pyLower rname ++ ".h"), ""],
    rfl, ?_, ?_⟩
  · -- structural equation
    have hstream : streamSection rname
        [⟨n1, .enum ename pairs w, none, "inline"⟩,
         ⟨n2, .enum ename pairs w, none, "inline"⟩] [32] =
        .ok (["    template<typename Tstream>" ++ rt, "",
              "    template<typename Tstream>" ++ wt, ""] ++ []) := by
      rw [streamSection, hrt, hwt, streamSection]
      rfl
    have hany : (("enum " ++ ename ++ " : unsigned int \x7b\n        " ++
        String.intercalate ",\n        "
          (pairs.map (fun e => e.1 ++ " = " ++ toString e.2)) ++
        "\n    \x7d;").data.any (fun c => !c.isWhitespace)) = true := by
      have h1 : (("enum " : String).data.any (fun c => !c.isWhitespace)) = true := rfl
      simp only [String.data_append, List.any_append, h1, Bool.true_or]
    have hpre : preambleSection
        [⟨n1, .enum ename pairs w, none, "inline"⟩,
         ⟨n2, .enum ename pairs w, none, "inline"⟩] =
        [("    " ++ ("enum " ++ ename ++ " : unsigned int \x7b\n        " ++
          String.intercalate ",\n        "
            (pairs.map (fun e => e.1 ++ " = " ++ toString e.2)) ++ "\n    \x7d;")), "",
         ("    " ++ ("enum " ++ ename ++ " : unsigned int \x7b\n        " ++
          String.intercalate ",\n        "
            (pairs.map (fun e => e.1 ++ " = " ++ toString e.2)) ++ "\n    \x7d;")), ""] := by
      simp [preambleSection, BaseType.preamble, hany]
    unfold genIncludeLines
    rw [hstream, hpre]
    simp only [List.append_assoc, List.cons_append, List.append_nil, List.nil_append]
    rfl
  · -- counting
    generalize hpeq : ("    " ++ ("enum " ++ ename ++ " : unsigned int \x7b\n        " ++
        String.intercalate ",\n        "
          (pairs.map (fun e => e.1 ++ " = " ++ toString e.2)) ++
        "\n    \x7d;")) = pElt
    have hsp : (pElt.data[0]?) = some ' ' := by
      rw [← hpeq]
      exact data_get_append _ _ 0 ' ' rfl
    have hpe : (pElt.data[4]?) = some 'e' := by
      rw [← hpeq, data_get_append_right "    " _ 4 (by decide)]
      repeat apply data_get_append
      rfl
    obtain ⟨dt1, hdt1⟩ := genStreamDispatch_fst_head rname 32 []
    obtain ⟨dt2, hdt2⟩ := genStreamDispatch_snd_head rname 32 []
    obtain ⟨et, het⟩ := genEqualityOperator_head rname
      [⟨n1, .enum ename pairs w, none, "inline"⟩,
       ⟨n2, .enum ename pairs w, none, "inline"⟩]
    obtain ⟨st, hst⟩ := genStringMethod_head
      [⟨n1, .enum ename pairs w, none, "inline"⟩,
       ⟨n2, .enum ename pairs w, none, "inline"⟩]
    have hcd1 : ((FieldInfo.mk n1 (.enum ename pairs w) none
        "inline").cpp_decl.data[4]?) = some 'a' := by
      show (("    " ++ (BaseType.enum ename pairs w).cpp_repr ++ " " ++ n1 ++
        ";").data[4]?) = some 'a'
      apply data_get_append
      apply data_get_append
      apply data_get_append
      rw [data_get_append_right "    " _ 4 (by decide)]
      show ((("ap_uint<" ++ toString w) ++ ">").data[0]?) = some 'a'
      apply data_get_append
      apply data_get_append
      rfl
    have hcd2 : ((FieldInfo.mk n2 (.enum ename pairs w) none
        "inline").cpp_decl.data[4]?) = some 'a' := by
      show (("    " ++ (BaseType.enum ename pairs w).cpp_repr ++ " " ++ n2 ++
        ";").data[4]?) = some 'a'
      apply data_get_append
      apply data_get_append
      apply data_get_append
      rw [data_get_append_right "    " _ 4 (by decide)]
      show ((("ap_uint<" ++ toString w) ++ ">").data[0]?) = some 'a'
      apply data_get_append
      apply data_get_append
      rfl
    have hne1 := strNeAt _ pElt 0 '#' ' '
      (data_get_append "#ifndef " (guardName (pyLower rname ++ ".h")) 0 '#' rfl) hsp
      (by decide)
    have hne2 := strNeAt _ pElt 0 '#' ' '
      (data_get_append "#define " (guardName (pyLower rname ++ ".h")) 0 '#' rfl) hsp
      (by decide)
    have hne3 := Ne.symm (strNeEmpty pElt 0 ' ' hsp)
    have hne4 := strNeAt "#include <hls_stream.h>" pElt 0 '#' ' ' rfl hsp (by decide)
    have hne5 := strNeAt "#include <ap_int.h>" pElt 0 '#' ' ' rfl hsp (by decide)
    have hne6 := strNeAt "#include <ap_axi_sdata.h>" pElt 0 '#' ' ' rfl hsp (by decide)
    have hne7 := strNeAt "#include <string>" pElt 0 '#' ' ' rfl hsp (by decide)
    have hne8 := strNeAt "#include <sstream>" pElt 0 '#' ' ' rfl hsp (by decide)
    have hne9 := strNeAt _ pElt 0 'c' ' '
      (data_get_append ("class " ++ rname) " \x7b" 0 'c'
        (data_get_append "class " rname 0 'c' rfl)) hsp (by decide)
    have hne10 := strNeAt "public:" pElt 0 'p' ' ' rfl hsp (by decide)
    have hne11 := strNeAt _ pElt 4 'a' 'e' hcd1 hpe (by decide)
    have hne12 := strNeAt _ pElt 4 'a' 'e' hcd2 hpe (by decide)
    have hne13 := strNeAt _ pElt 4 't' 'e'
      (data_get_append "    template<typename Tstream>" rt 4 't' rfl) hpe (by decide)
    have hne14 := strNeAt _ pElt 4 't' 'e'
      (data_get_append "    template<typename Tstream>" wt 4 't' rfl) hpe (by decide)
    have hne15 : (genStreamDispatch rname [32]).1 ≠ pElt := strNeAt _ pElt 4 't' 'e'
      (by rw [hdt1]; exact data_get_append "    template<typename Tstream>" dt1 4 't' rfl)
      hpe (by decide)
    have hne16 : (genStreamDispatch rname [32]).2 ≠ pElt := strNeAt _ pElt 4 't' 'e'
      (by rw [hdt2]; exact data_get_append "    template<typename Tstream>" dt2 4 't' rfl)
      hpe (by decide)
    have hne17 : genEqualityOperator rname
        [⟨n1, .enum ename pairs w, none, "inline"⟩,
         ⟨n2, .enum ename pairs w, none, "inline"⟩] ≠ pElt := strNeAt _ pElt 4 'b' 'e'
      (by
        rw [het]
        apply data_get_append
        apply data_get_append
        apply data_get_append
        rfl)
      hpe (by decide)
    have hne18 : genStringMethod
        [⟨n1, .enum ename pairs w, none, "inline"⟩,
         ⟨n2, .enum ename pairs w, none, "inline"⟩] ≠ pElt := strNeAt _ pElt 4 's' 'e'
      (by rw [hst]; exact data_get_append _ st 4 's' rfl)
      hpe (by decide)
    have hne19 := strNeAt "\x7d;" pElt 0 '\x7d' ' ' rfl hsp (by decide)
    have hne20 := strNeAt _ pElt 0 '#' ' '
      (data_get_append "#endif // " (guardName (pyLower rname ++ ".h")) 0 '#' rfl) hsp
      (by decide)
    rw [List.count_append]
    have hc1 : (includeHeaderLines rname
        (guardName (pyLower rname ++ ".h"))).count pElt = 0 := by
      simp only [includeHeaderLines, List.count_cons, List.count_nil, beq_iff_eq,
        hne1, hne2, hne3, hne4, hne5, hne6, hne7, hne8, hne9, hne10,
        if_false, ite_false, Nat.add_zero]
    rw [hc1, Nat.zero_add]
    simp only [List.count_cons, List.count_nil, beq_iff_eq,
      hne3, hne11, hne12, hne13, hne14, hne15, hne16, hne17, hne18, hne19, hne20,
      if_false, ite_false, Nat.add_zero, if_true, ite_true]

/-- Witness for the amended C3 at record "S", enum "E" of width 1, fields "a"
and "b". -/
theorem C3_preamble_per_field_amended_witness :
    (1 : Nat) ≤ 32 ∧
    (∃ p tail,
      (BaseType.enum "E" [("A", 0)] 1).preamble = some p
      ∧ genIncludeLines "S" none
          [⟨"a", .enum "E" [("A", 0)] 1, none, "inline"⟩,
           ⟨"b", .enum "E" [("A", 0)] 1, none, "inline"⟩] [32] =
        .ok (includeHeaderLines "S" (guardName (pyLower "S" ++ ".h")) ++
          ("    " ++ p) :: "" :: ("    " ++ p) :: "" ::
          (FieldInfo.mk "a" (.enum "E" [("A", 0)] 1) none "inline").cpp_decl ::
          (FieldInfo.mk "b" (.enum "E" [("A", 0)] 1) none "inline").cpp_decl :: "" :: tail)
      ∧ (includeHeaderLines "S" (guardName (pyLower "S" ++ ".h")) ++
          ("    " ++ p) :: "" :: ("    " ++ p) :: "" ::
          (FieldInfo.mk "a" (.enum "E" [("A", 0)] 1) none "inline").cpp_decl ::
          (FieldInfo.mk "b" (.enum "E" [("A", 0)] 1) none "inline").cpp_decl :: "" ::
          tail).count ("    " ++ p) = 2) :=
  ⟨by decide, C3_preamble_per_field_amended "S" "E" "a" "b" [("A", 0)] 1 (by decide)⟩

end DSGen
